import Mathlib

/-!
Verification development for the repository summarization service
(`summary_api`): a shallow embedding in Lean 4 of the batch-selection
algorithm (`services/selection.py`, `services/repo_processor.py`), the
decider heuristic (`nodes/decider.py`), the structured-response parsing
(`clients/llm_client.py`), the blob-fetch result handling
(`clients/github_client.py`), and the five-node workflow engine
(`workflow.py` plus the node modules), together with theorems about the
selection bounds, the state invariants and the termination behaviour of
the engine.

Python machine-level conventions used throughout the embedding:
strings are Lean `String` (Python `str`, code-point semantics), sizes and
counts are `Nat` (the corresponding Python ints are non-negative
configuration values), `None`-able values are `Option`, raised exceptions
are `Except`.  Calls into external services (HTTP, the generative model)
are modeled as explicit oracle parameters; everything else is translated
from the source.
-/

/-! ## Python string helpers

All character-level operations are defined by structural recursion over
`String.data` so that concrete instances evaluate inside the kernel. -/

/-- Python whitespace test used by `str.strip` and `str.split()`. -/
def isPyWs (c : Char) : Bool := c.isWhitespace

/-- Drop leading whitespace characters (left half of Python `str.strip`). -/
def charTrimLeft (xs : List Char) : List Char := xs.dropWhile isPyWs

/-- Drop trailing whitespace characters (right half of Python `str.strip`). -/
def charTrimRight (xs : List Char) : List Char := (xs.reverse.dropWhile isPyWs).reverse

/-- Both halves of Python `str.strip`. -/
def charTrim (xs : List Char) : List Char := charTrimRight (charTrimLeft xs)

/-- Python `str.strip()` with no arguments: remove leading and trailing whitespace. -/
def pyStrip (s : String) : String := String.mk (charTrim s.data)

/-- Python `str.lower()` (ASCII case folding, which covers every string the
source lowercases). -/
def pyLower (s : String) : String := String.mk (s.data.map Char.toLower)

/-- Split a character list at every separator satisfying `p`; `acc` holds the
current piece reversed.  Mirrors the piece structure of Python `str.split`. -/
def splitCharsAux (p : Char → Bool) : List Char → List Char → List (List Char)
  | [], acc => [acc.reverse]
  | c :: cs, acc =>
    if p c then acc.reverse :: splitCharsAux p cs [] else splitCharsAux p cs (c :: acc)

/-- Python `str.split()` with no arguments: split on whitespace, dropping
empty pieces. -/
def pySplitWs (s : String) : List String :=
  ((splitCharsAux isPyWs s.data []).map String.mk).filter (fun t => t ≠ "")

/-- `s.lower().split()`, the tokenization used by the decider heuristic. -/
def pyTokens (s : String) : List String := pySplitWs (pyLower s)

/-- `" ".join(pieces)`, as used by the decider heuristic. -/
def pyJoinSpace (pieces : List String) : String := String.intercalate " " pieces

/-- `s.endswith(suffix)` (both arguments already lowercased by the callers). -/
def strEndsWith (s suffix : String) : Bool := suffix.data.isSuffixOf s.data

/-- Keep the first occurrence of every element, dropping later duplicates
(the key order of a Python dict built by insertion); `seen` accumulates the
keys already emitted. -/
def dedupFirstAux (seen : List String) : List String → List String
  | [] => []
  | a :: l => if a ∈ seen then dedupFirstAux seen l else a :: dedupFirstAux (a :: seen) l

/-- First-occurrence deduplication of a list of strings. -/
def dedupFirst (l : List String) : List String := dedupFirstAux [] l

/-! ## `services/repo_processor.py`: path filtering and priorities -/

/-- `SKIP_DIRS` from `repo_processor.py` (directory names skipped case-insensitively). -/
def skip_dirs : List String :=
  ["node_modules", "__pycache__", ".git", "venv", ".venv", "env", ".env",
   "dist", "build", ".eggs", ".tox", ".pytest_cache", ".mypy_cache", ".ruff_cache",
   "vendor", "pods", ".idea", ".vscode", "coverage", "htmlcov", ".nx", ".turbo",
   "target", "bower_components", ".cache", "cache"]

/-- `SKIP_FILE_PATTERNS` from `repo_processor.py`.  Every pattern there is a
case-insensitive regex of the form `literal$` applied with `search`, i.e. a
literal-suffix test after lowercasing; the alternations are expanded here. -/
def skip_file_suffixes : List String :=
  [".min.js", ".min.css", ".map",
   "package-lock.json", "yarn.lock", "poetry.lock", "pipfile.lock",
   "cargo.lock", "composer.lock", ".lock",
   ".png", ".jpg", ".jpeg", ".gif", ".webp", ".ico", ".bmp",
   ".woff", ".woff2", ".ttf", ".eot", ".otf",
   ".pdf", ".pyc", ".so", ".dll", ".exe", ".class", ".jar",
   "pnpm-lock.yaml", "bun.lock", "bun.lockb", "gemfile.lock", "go.sum",
   ".rlib", ".rmeta", ".tsbuildinfo", ".wasm",
   ".sqlite", ".db",
   ".log", ".tmp", ".temp"]

/-- `_path_segments`: split on `/` after replacing backslashes, dropping empty
segments. -/
def path_segments (path : String) : List String :=
  let chars := path.data.map fun c => if c = '\\' then '/' else c
  ((splitCharsAux (fun c => c = '/') chars []).map String.mk).filter (fun p => p ≠ "")

/-- `should_skip_path` from `repo_processor.py`: skip when a directory segment
is in the exclusion set (case-insensitively, also `.egg-info`/`.eggs`
suffixes) or the final segment ends in one of the skip suffixes. -/
def should_skip_path (path : String) : Bool :=
  let segments := path_segments path
  (segments.dropLast.any fun seg =>
    let s := pyLower seg
    s ∈ skip_dirs || strEndsWith s ".egg-info" || s == ".eggs")
  || (let base := (segments.getLast?.getD "")
      skip_file_suffixes.any fun suf => strEndsWith (pyLower base) suf)

/-- Stems accepted by `PRIORITY_README` in `repo_processor.py`. -/
def readme_stems : List String := ["readme", "read_me", "contributing", "changelog"]

/-- Does `base` (already lowercased) match `^stem(\.[a-z0-9]+)?$`? -/
def matchesStemWithExt (stem base : String) : Bool :=
  base == stem ||
    ((stem.data ++ ['.']).isPrefixOf base.data &&
      (let ext := base.data.drop (stem.data.length + 1)
       ext ≠ [] && ext.all fun c => c.isLower || c.isDigit))

/-- `PRIORITY_README.match(base) or PRIORITY_LICENSE.match(base)` on a
lowercased final segment. -/
def matchesReadmeOrLicense (base : String) : Bool :=
  readme_stems.any (fun stem => matchesStemWithExt stem base) ||
    matchesStemWithExt "license" base

/-- `PRIORITY_CONFIG_NAMES` from `repo_processor.py`, lowercased (the source
compares against `{s.lower() for s in PRIORITY_CONFIG_NAMES}`). -/
def priority_config_names : List String :=
  ["package.json", "pyproject.toml", "requirements.txt", "requirements-dev.txt",
   "setup.py", "setup.cfg", "cargo.toml", "go.mod", "go.sum", "makefile",
   "dockerfile", "docker-compose.yml", "docker-compose.yaml",
   "tsconfig.json", "webpack.config.js", "cmakelists.txt"]

/-- `_file_priority` from `repo_processor.py`: lower is higher priority.
(The source indexes `segments[-1]`, which presupposes a non-empty segment
list; the embedding totalizes that lookup with the empty string.) -/
def file_priority (path : String) : Nat :=
  let segments := path_segments path
  let base := pyLower (segments.getLast?.getD "")
  let dir_depth := segments.length - 1
  if matchesReadmeOrLicense base then 0
  else if dir_depth = 0 && base ∈ priority_config_names then 1
  else if base ∈ priority_config_names then 2
  else if dir_depth ≤ 1 then 3
  else 4 + min dir_depth 5

/-! ## `clients/github_client.py`: data types -/

/-- `RepoFile` dataclass: a path plus decoded text content. -/
structure RepoFile where
  path : String
  content : String
deriving DecidableEq, Repr

/-- `TreeEntry` dataclass: a path from the repo tree listing, with optional
size and blob sha. -/
structure TreeEntry where
  path : String
  size : Option Nat := none
  sha : Option String := none
deriving DecidableEq, Repr

/-! ## `services/selection.py`: budgeted batch selection -/

/-- `_effective_file_size`: cap a file's counted size at `max_chars_per_file`
unless that cap is zero (the source tests `<= 0`; the config value is a
non-negative int).  The `max_chars_budget` argument is unused, as in the
source signature. -/
def effective_file_size (size _max_chars_budget max_chars_per_file : Nat) : Nat :=
  if max_chars_per_file = 0 then size else min size max_chars_per_file

/-- The value stored for `p` in the Python dict `{f.path: f for f in repo_files
if f.path}`: the last file with that (non-empty) path. -/
def lookupFileLast (repo_files : List RepoFile) (p : String) : Option RepoFile :=
  (repo_files.filter fun f => f.path == p && f.path ≠ "").getLast?

/-- The counted size of a path inside `select_next_batch_by_budget`:
`len((f.content or "").strip()) if f else 0`. -/
def size_of_path (repo_files : List RepoFile) (p : String) : Nat :=
  match lookupFileLast repo_files p with
  | some f => (pyStrip f.content).length
  | none => 0

/-- The key list of `{f.path: f for f in repo_files if f.path}`: non-empty
paths, first-occurrence order, no duplicates. -/
def pathDictKeys (repo_files : List RepoFile) : List String :=
  dedupFirst ((repo_files.map RepoFile.path).filter fun p => p ≠ "")

/-- Strict lexicographic comparison of character lists by code point
(Python's `str` comparison). -/
def charListLt : List Char → List Char → Bool
  | [], [] => false
  | [], _ :: _ => true
  | _ :: _, [] => false
  | a :: as, b :: bs =>
    if a.toNat < b.toNat then true
    else if b.toNat < a.toNat then false
    else charListLt as bs

/-- Python `a <= b` on strings: code-point lexicographic. -/
def strCodeLe (a b : String) : Bool := charListLt a.data b.data || a == b

/-- The comparison used for `candidates.sort(key=lambda p: (file_priority(p),
p))`: lexicographic on the pair (priority, path). -/
def candidateLE (a b : String) : Prop :=
  file_priority a < file_priority b ∨
    (file_priority a = file_priority b ∧ strCodeLe a b = true)

instance : DecidableRel candidateLE := fun a b => by
  unfold candidateLE; infer_instance

/-- Source line `candidates.sort(key=lambda p: (file_priority(p), p))`;
the key is injective on duplicate-free candidate lists, so any sorting
algorithm produces the Python result.  Mathlib's insertion sort is used. -/
def sortCandidates (l : List String) : List String := List.insertionSort candidateLE l

/-- The filtered, ordered candidate list built by
`select_next_batch_by_budget` before the greedy walk. -/
def selectCandidates (repo_files : List RepoFile) (already : List String) : List String :=
  sortCandidates ((pathDictKeys repo_files).filter fun p =>
    ¬ p ∈ already ∧ ¬ should_skip_path p)

/-- The greedy accumulation loop of `select_next_batch_by_budget`:
stop at the file cap; stop when the budget would be exceeded and the batch is
non-empty (`count` is `len(chosen)` so far, `total` is `total_chars`). -/
def selectLoop (repo_files : List RepoFile) (budget cap per_file : Nat) :
    List String → Nat → Nat → List String
  | [], _, _ => []
  | p :: rest, total, count =>
    if cap ≤ count then []
    else
      let eff := effective_file_size (size_of_path repo_files p) budget per_file
      if budget < total + eff ∧ 0 < count then []
      else p :: selectLoop repo_files budget cap per_file rest (total + eff) (count + 1)

/-- `select_next_batch_by_budget` from `services/selection.py`.  The
`already_summarized_paths` set is represented by a list (only membership is
used). -/
def select_next_batch_by_budget (repo_files : List RepoFile) (already : List String)
    (max_chars_budget max_files_cap max_chars_per_file : Nat) : List String :=
  selectLoop repo_files max_chars_budget max_files_cap max_chars_per_file
    (selectCandidates repo_files already) 0 0

/-- The eligible path set of a file list: the candidate paths when nothing has
been processed yet (non-empty, deduplicated, not skipped). -/
def eligiblePaths (repo_files : List RepoFile) : List String :=
  (pathDictKeys repo_files).filter fun p => ¬ should_skip_path p

/-- Fold repeated selection: `processedAfter n` is the processed-path list
after `n` calls of `select_next_batch_by_budget`, each call's result appended
to the processed list (the driver loop described by the spec). -/
def processedAfter (repo_files : List RepoFile) (budget cap per_file : Nat) :
    Nat → List String
  | 0 => []
  | n + 1 =>
    let a := processedAfter repo_files budget cap per_file n
    a ++ select_next_batch_by_budget repo_files a budget cap per_file

/-! ## `nodes/decider.py`: the lexical-overlap heuristic -/

/-- The decider's verdict: the literals `"continue"` / `"done"`. -/
inductive Decision where
  | cont
  | done
deriving DecidableEq, Repr

/-- `HEURISTIC_OVERLAP_THRESHOLD = 0.7`, as an exact rational (the embedding
models Python float arithmetic by exact rational arithmetic). -/
def heuristicOverlapThreshold : ℚ := 7 / 10

/-- The token list of `" ".join(previous_summaries).lower().split()`. -/
def combinedTokens (previous_summaries : List String) : List String :=
  pyTokens (pyJoinSpace previous_summaries)

/-- The distinct tokens of `set((current_summary or "").lower().split())`. -/
def currentWordSet (current_summary : String) : List String :=
  dedupFirst (pyTokens current_summary)

/-- `_heuristic_continue_or_done` from `nodes/decider.py`: with no previous
summaries continue; with an empty current word set done; otherwise done
exactly when the fraction of current words occurring in the previous text
reaches the threshold.  The comparison `overlap / len(current_words) >= 0.7`
is written as the equivalent integer comparison `7 * len ≤ 10 * overlap`
(the denominator is positive here) so that the definition evaluates inside
the kernel; `C9_heuristic_overlap_threshold` restates it over `ℚ`. -/
def heuristic_continue_or_done (previous_summaries : List String)
    (current_summary : String) : Decision :=
  if previous_summaries = [] then .cont
  else
    let combined := combinedTokens previous_summaries
    let current_words := currentWordSet current_summary
    if current_words = [] then .done
    else
      let overlap := (current_words.filter fun w => w ∈ combined).length
      if 7 * current_words.length ≤ 10 * overlap then .done else .cont

/-! ## `clients/llm_client.py`: structured-response parsing

`json.loads` is the Python standard library, not repository code; the
embedding takes it as an explicit parameter `loads : String → Option Json`
(`none` models `json.JSONDecodeError`).  Everything downstream of it is
translated from `_parse_structured_response`. -/

/-- The values producible by `json.loads` (floats are not modeled; no claim
involves numeric payloads). -/
inductive Json where
  | null
  | bool (b : Bool)
  | num (n : Int)
  | str (s : String)
  | arr (xs : List Json)
  | obj (fields : List (String × Json))

mutual

/-- Python `repr` of a parsed-JSON value (used by `str` on containers). -/
def pyReprJson : Json → String
  | .null => "None"
  | .bool true => "True"
  | .bool false => "False"
  | .num n => toString n
  | .str s => "\x27" ++ s ++ "\x27"
  | .arr xs => "[" ++ pyJoinList xs ++ "]"
  | .obj fs => "\x7b" ++ pyJoinObj fs ++ "\x7d"

/-- Comma-joined `repr` of array elements. -/
def pyJoinList : List Json → String
  | [] => ""
  | [x] => pyReprJson x
  | x :: xs => pyReprJson x ++ ", " ++ pyJoinList xs

/-- Comma-joined `repr` of object entries. -/
def pyJoinObj : List (String × Json) → String
  | [] => ""
  | [(k, v)] => "\x27" ++ k ++ "\x27: " ++ pyReprJson v
  | (k, v) :: xs => "\x27" ++ k ++ "\x27: " ++ pyReprJson v ++ ", " ++ pyJoinObj xs

end

/-- Python `str()` of a parsed-JSON value: a string prints bare, everything
else as its `repr`. -/
def pyStrJson : Json → String
  | .str s => s
  | v => pyReprJson v

/-- `data.get(k)` on a parsed JSON object: Python dicts from `json.loads`
keep the last value for a duplicated key. -/
def jsonGet (fields : List (String × Json)) (k : String) : Option Json :=
  (fields.filter fun f => f.1 == k).getLast?.map Prod.snd

/-- `data.get(k)` as seen by `is None` tests: a JSON `null` value behaves
like a missing key. -/
def jsonGetPy (fields : List (String × Json)) (k : String) : Option Json :=
  match jsonGet fields k with
  | some .null => none
  | v => v

/-- Does the character list begin with a triple-backtick fence? -/
def startsWithFence : List Char → Bool
  | c1 :: c2 :: c3 :: _ => c1 = '\x60' && c2 = '\x60' && c3 = '\x60'
  | _ => false

/-- Find the first occurrence of a triple-backtick fence in a character list;
return the characters before it and the characters after it. -/
def splitFence : List Char → Option (List Char × List Char)
  | [] => none
  | c :: cs =>
    if startsWithFence (c :: cs) then some ([], (c :: cs).drop 3)
    else (splitFence cs).map fun p => (c :: p.1, p.2)

/-- The effect of `re.search(r"```(?:json)?\s*([\s\S]*?)```", text)` followed
by `.group(1).strip()`: take the text between the first fence (minus an
optional literal `json` tag) and the next fence, stripped.  `none` models "no
match".  The regex's greedy `\s*` is absorbed by the final strip, and a match
exists exactly when a second fence follows the first one. -/
def extractFenced (text : String) : Option String :=
  match splitFence text.data with
  | none => none
  | some (_, rest) =>
    let rest := if ['j', 's', 'o', 'n'].isPrefixOf rest then rest.drop 4 else rest
    match splitFence rest with
    | none => none
    | some (mid, _) => some (String.mk (charTrim mid))

/-- The result dict of `_parse_structured_response`. -/
structure StructuredOut where
  summary : String
  technologies : List String
  structureText : String
deriving DecidableEq, Repr

/-- Lines 79–97 of `llm_client.py`: extract and normalize the three fields
from a parsed JSON object. -/
def structuredFromObj (fields : List (String × Json)) (content : String) : StructuredOut :=
  let summary :=
    match jsonGetPy fields "summary" with
    | some (.str s) => s
    | some v => pyStrJson v
    | none =>
      let d := match jsonGet fields "description" with
               | none => Json.str ""
               | some v => v
      let ds := pyStrJson d
      if ds = "" then pyStrip content else ds
  let technologies :=
    match jsonGet fields "technologies" with
    | some (.arr xs) => xs.filterMap fun x => match x with | .str s => some s | _ => none
    | _ => []
  let structureText :=
    match jsonGetPy fields "structure" with
    | some (.str s) => s
    | some v => pyStrJson v
    | none => ""
  ⟨summary, technologies, structureText⟩

/-- `_parse_structured_response` from `clients/llm_client.py`, with
`json.loads` abstracted as `loads`.  Empty input yields the empty result; a
fenced block is unwrapped before parsing; a parse failure or a non-object
value falls back to the raw text as summary. -/
def parse_structured_response (loads : String → Option Json) (content : String) :
    StructuredOut :=
  if pyStrip content = "" then ⟨"", [], ""⟩
  else
    let text := pyStrip content
    let text := match extractFenced text with
                | some t => t
                | none => text
    match loads text with
    | none => ⟨pyStrip content, [], ""⟩
    | some (.obj fields) => structuredFromObj fields content
    | some _ => ⟨pyStrip content, [], ""⟩

/-! ## `clients/github_client.py`: blob fetching

HTTP traffic is abstracted by a per-entry response oracle; base64 and UTF-8
decoding are the Python standard library and are abstracted as parameters
(`b64decode` returning `none` models `binascii.Error`, `utf8decode`
returning `none` models `UnicodeDecodeError`).  The control flow around them
is translated from `_fetch_single_blob` / `fetch_blob_contents_for_entries`. -/

/-- `GitHubClientError`: message plus transience flag. -/
structure GitHubClientError where
  message : String
  is_transient : Bool
deriving DecidableEq, Repr

/-- The observable outcome of one HTTP GET against the blob endpoint:
a JSON body with optional `content`/`encoding` fields (status < 400), an
HTTP error status (≥ 400), a timeout, or a network error. -/
inductive BlobHttpResult where
  | okJson (content : Option String) (encoding : Option String)
  | httpStatus (code : Nat)
  | timeout
  | netError (message : String)
deriving DecidableEq, Repr

/-- Python truthiness of `entry.sha` (an `Optional[str]`): neither `None` nor
empty. -/
def shaTruthy (e : TreeEntry) : Bool :=
  match e.sha with
  | some s => s ≠ ""
  | none => false

/-- Whitespace removal before base64 decoding:
`raw.replace(" ", "").replace("\n", "").replace("\r", "").replace("\t", "")`. -/
def stripB64Ws (s : String) : String :=
  String.mk (s.data.filter fun c => ¬ (c = ' ' ∨ c = '\n' ∨ c = '\r' ∨ c = '\t'))

/-- The `except httpx.HTTPStatusError` handler of `_fetch_single_blob`:
map an HTTP status to a `GitHubClientError`. -/
def blobStatusError (code : Nat) : GitHubClientError :=
  if code = 404 then ⟨"Blob not found or repository inaccessible", false⟩
  else if code = 403 then ⟨"GitHub API rate limit or access denied", true⟩
  else if 500 ≤ code then ⟨"GitHub API server error", true⟩
  else ⟨"GitHub API error", false⟩

/-- `_fetch_single_blob` from `clients/github_client.py`: `ok none` is the
silent per-blob skip (no sha, payload not declared base64, empty payload,
base64 failure, or UTF-8 failure); `error` is a raised `GitHubClientError`. -/
def fetch_single_blob (b64decode : String → Option (List Nat))
    (utf8decode : List Nat → Option String) (entry : TreeEntry)
    (resp : BlobHttpResult) : Except GitHubClientError (Option RepoFile) :=
  if ¬ shaTruthy entry then .ok none
  else
    match resp with
    | .httpStatus code => .error (blobStatusError code)
    | .timeout => .error ⟨"Request to GitHub timed out", true⟩
    | .netError m => .error ⟨"Network error: " ++ m, true⟩
    | .okJson raw encoding =>
      match raw with
      | none => .ok none
      | some raw =>
        if raw = "" ∨ encoding ≠ some "base64" then .ok none
        else
          match b64decode (stripB64Ws raw) with
          | none => .ok none
          | some bytes =>
            match utf8decode bytes with
            | none => .ok none
            | some text => .ok (some ⟨entry.path, text⟩)

/-- The entries for which `fetch_blob_contents_for_entries` issues one HTTP
request each (`entries_with_sha = [e for e in entries if e.sha]`); every
other entry is skipped without any request. -/
def blobRequestEntries (entries : List TreeEntry) : List TreeEntry :=
  entries.filter shaTruthy

/-- The scan over `asyncio.gather(..., return_exceptions=True)` results:
collect decoded files in order, but raise the first exception encountered. -/
def collectBlobResults :
    List (Except GitHubClientError (Option RepoFile)) →
    Except GitHubClientError (List RepoFile)
  | [] => .ok []
  | .error e :: _ => .error e
  | .ok none :: rest => collectBlobResults rest
  | .ok (some f) :: rest => (collectBlobResults rest).map fun fs => f :: fs

/-- `fetch_blob_contents_for_entries` from `clients/github_client.py` (the
body inside one retry attempt): empty entry list short-circuits; an invalid
repository URL raises (`urlParse` models `_parse_github_url`); otherwise one
request per sha-bearing entry, decoded results kept in order, any raised
per-blob error re-raised for the whole call. -/
def fetch_blob_contents_for_entries (b64decode : String → Option (List Nat))
    (utf8decode : List Nat → Option String)
    (urlParse : Except GitHubClientError Unit)
    (resps : TreeEntry → BlobHttpResult) (entries : List TreeEntry) :
    Except GitHubClientError (List RepoFile) :=
  if entries = [] then .ok []
  else
    match urlParse with
    | .error e => .error e
    | .ok _ =>
      collectBlobResults ((blobRequestEntries entries).map fun e =>
        fetch_single_blob b64decode utf8decode e (resps e))

/-! ## The resilient-call layer (decorators in `clients/*.py`)

`tenacity.retry` / `circuitbreaker.circuit` are external libraries; the
decorator *placement* and its constants are transcribed from the source, and
the retry loop's attempt semantics is modeled by `retryCall`. -/

/-- The outbound network calls of `clients/github_client.py` and
`clients/llm_client.py`. -/
inductive OutboundCall where
  | fetchRepoTree
  | fetchBlobContentsForEntries
  | fetchRepoFiles
  | summarizeRepo
  | summarizeFolder
  | summarizeBatch
  | summarizeProjectFromFolders
  | decideContinueOrDone
  | planBatchesFromStructure
deriving DecidableEq, Repr

/-- The retry/circuit-breaker policy carried by the decorator stack
`@circuit(failure_threshold=5, recovery_timeout=60, ...)` +
`@retry(retry=retry_if_exception(transient), stop=stop_after_attempt(3),
wait=wait_random_exponential(multiplier=1, min=1, max=60), reraise=True)`. -/
structure ResiliencePolicy where
  retry_attempts : Nat
  retry_min_wait : Nat
  retry_max_wait : Nat
  retry_transient_only : Bool
  breaker_failure_threshold : Nat
  breaker_recovery_timeout : Nat
deriving DecidableEq, Repr

/-- The decorator stack shared by every wrapped call in the two client
modules (`RETRY_ATTEMPTS = 3`, `RETRY_MIN_WAIT = 1`, `RETRY_MAX_WAIT = 60`,
breaker threshold 5, recovery 60). -/
def standardPolicy : ResiliencePolicy := ⟨3, 1, 60, true, 5, 60⟩

/-- Which decorators each outbound call carries in the source: transcription
of the `@circuit`/`@retry` lines of `clients/github_client.py` and
`clients/llm_client.py`.  `fetch_repo_tree` and `decide_continue_or_done`
are defined without any decorator. -/
def resilienceWrapping : OutboundCall → Option ResiliencePolicy
  | .fetchRepoTree => none
  | .decideContinueOrDone => none
  | _ => some standardPolicy

/-- One attempt-indexed failure model for a wrapped call: `attempts i` is the
outcome of the i-th attempt. -/
def retryGo {E A : Type} (isTransient : E → Bool) (attempts : Nat → Except E A) :
    Nat → Nat → Except E A
  | i, 0 => attempts i
  | i, remaining + 1 =>
    match attempts i with
    | .ok a => .ok a
    | .error e =>
      if isTransient e ∧ 0 < remaining then retryGo isTransient attempts (i + 1) remaining
      else .error e

/-- `tenacity.retry(retry=retry_if_exception(isTransient),
stop=stop_after_attempt(maxAttempts), reraise=True)`: run attempts `0, 1, …`,
retrying only transient failures, at most `maxAttempts` attempts in total,
re-raising the last error. -/
def retryCall {E A : Type} (maxAttempts : Nat) (isTransient : E → Bool)
    (attempts : Nat → Except E A) : Except E A :=
  retryGo isTransient attempts 0 maxAttempts

/-! ## The workflow engine (`workflow.py`, `models/state.py`, `nodes/*.py`)

LangGraph merges the dict a node returns into the state; the embedding makes
each node a total function from state to state (plus a raised error for the
batch fetcher).  Model calls are oracle parameters that may observe the
whole state, which subsumes any call-count- or content-dependent behaviour
of the external services. -/

/-- One entry of `summarized_chunks`: `{"paths": [...], "summary": "..."}`. -/
structure Chunk where
  paths : List String
  summary : String
deriving DecidableEq, Repr

/-- The synthesizer result `{"summary", "technologies", "structure"}`. -/
structure FinalSummary where
  summary : String
  technologies : List String
  structureText : String
deriving DecidableEq, Repr

/-- One entry of the state's `errors` list: `{"node": ..., "message": ...}`. -/
structure ErrorEntry where
  node : String
  message : String
deriving DecidableEq, Repr

/-- `LLMClientError`: message plus transience flag. -/
structure LLMClientError where
  message : String
  is_transient : Bool
deriving DecidableEq, Repr

/-- The configuration fields of `config.Settings` read by the graph nodes.
`SUMMARY_MAX_ITERATIONS` is included because the spec names it; the theorems
record that no node consults it. -/
structure Settings where
  SUMMARY_MAX_CONTEXT_CHARS_PER_BATCH : Nat
  SUMMARY_MAX_FILES_PER_BATCH : Nat
  SUMMARY_MAX_CHARS_COUNT_PER_FILE : Nat
  SUMMARY_MAX_ITERATIONS : Nat
  DECIDER_USE_LLM : Bool
deriving DecidableEq, Repr

/-- `SummaryGraphState` from `models/state.py`.  `all_repo_files` is the key
read via `state.get("all_repo_files")` by the selector and summarizer nodes;
it is not part of the initial dict built by `run_summary_graph` and no node
writes it, so reads default to the empty list (field value `[]`). -/
structure GraphState where
  repo_github_url : String
  repo_tree_entries : List TreeEntry
  planned_batches : List (List String)
  current_batch_index : Nat
  current_batch_paths : List String
  current_batch_files : List RepoFile
  all_repo_files : List RepoFile
  already_summarized_paths : List String
  summarized_chunks : List Chunk
  decision : Decision
  final_summary : Option FinalSummary
  iteration_count : Nat
  errors : List ErrorEntry
  correlation_id : String
deriving DecidableEq, Repr

/-- The initial state dict of `run_summary_graph` (workflow.py lines
102–116).  There is no `"all_repo_files"` key in that dict, so the
corresponding field is the empty list. -/
def mkInitialState (correlation_id repo_github_url : String)
    (repo_tree_entries : List TreeEntry) (planned_batches : List (List String)) :
    GraphState :=
  { repo_github_url := repo_github_url
    repo_tree_entries := repo_tree_entries
    planned_batches := planned_batches
    current_batch_index := 0
    current_batch_paths := []
    current_batch_files := []
    all_repo_files := []
    already_summarized_paths := []
    summarized_chunks := []
    decision := .cont
    final_summary := none
    iteration_count := 0
    errors := []
    correlation_id := correlation_id }

/-- `selector_node` from `nodes/selector.py`: run budgeted selection over
`all_repo_files` minus `already_summarized_paths` and write
`current_batch_paths`. -/
def selector_node (settings : Settings) (s : GraphState) : GraphState :=
  let paths := select_next_batch_by_budget s.all_repo_files s.already_summarized_paths
    settings.SUMMARY_MAX_CONTEXT_CHARS_PER_BATCH settings.SUMMARY_MAX_FILES_PER_BATCH
    settings.SUMMARY_MAX_CHARS_COUNT_PER_FILE
  { s with current_batch_paths := paths }

/-- `_entries_for_batch` from `nodes/batch_fetcher.py`: resolve batch paths
through the (last-wins) path→entry dict, keeping only entries with a truthy
sha. -/
def entries_for_batch (tree : List TreeEntry) (batch : List String) : List TreeEntry :=
  batch.filterMap fun p =>
    match (tree.filter fun e => e.path == p && e.path ≠ "").getLast? with
    | some e => if shaTruthy e then some e else none
    | none => none

/-- `batch_fetcher_node` from `nodes/batch_fetcher.py`: with no repo URL,
record an error entry and write an empty file list; with no resolvable
entries, write an empty file list; otherwise write the fetched files, or
re-raise the fetch error (`fetchResult` is the outcome of
`fetch_blob_contents_for_entries`). -/
def batch_fetcher_node (fetchResult : Except GitHubClientError (List RepoFile))
    (s : GraphState) : Except GitHubClientError GraphState :=
  if pyStrip s.repo_github_url = "" then
    .ok { s with current_batch_files := [],
                 errors := s.errors ++ [⟨"batch_fetcher", "missing repo_github_url"⟩] }
  else
    let entries := entries_for_batch s.repo_tree_entries s.current_batch_paths
    if entries = [] then .ok { s with current_batch_files := [] }
    else
      match fetchResult with
      | .ok files => .ok { s with current_batch_files := files }
      | .error e => .error e

/-- `summarizer_node` from `nodes/summarizer.py`: no-op on an empty batch;
on a model error append an error entry and leave the chunks untouched; on
success append exactly one chunk and extend the processed-path list with the
batch (`llmResult` is the `"summary"` string of `summarize_batch`). -/
def summarizer_node (llmResult : Except LLMClientError String) (s : GraphState) :
    GraphState :=
  if s.current_batch_paths = [] then s
  else
    match llmResult with
    | .error e => { s with errors := s.errors ++ [⟨"summarizer", e.message⟩] }
    | .ok raw =>
      { s with
        summarized_chunks := s.summarized_chunks ++ [⟨s.current_batch_paths, pyStrip raw⟩]
        already_summarized_paths := s.already_summarized_paths ++ s.current_batch_paths }

/-- `decider_node` from `nodes/decider.py`: done immediately with no chunks;
otherwise a content decision (model oracle when `DECIDER_USE_LLM`, falling
back to the heuristic on a model error), forced to done when the advanced
batch index would run off the planned list; the index advances only on
continue.  The node never touches `iteration_count`. -/
def decider_node (settings : Settings) (llmDecision : Except LLMClientError Decision)
    (s : GraphState) : GraphState :=
  if s.summarized_chunks = [] then { s with decision := .done }
  else
    let current_summary := pyStrip (((s.summarized_chunks.getLast?).map Chunk.summary).getD "")
    let previous_summaries := s.summarized_chunks.dropLast.map Chunk.summary
    let d0 :=
      if settings.DECIDER_USE_LLM then
        match llmDecision with
        | .ok d => d
        | .error _ => heuristic_continue_or_done previous_summaries current_summary
      else heuristic_continue_or_done previous_summaries current_summary
    let next_index := s.current_batch_index + 1
    let d := if d0 = .cont ∧ s.planned_batches.length ≤ next_index then .done else d0
    if d = .cont then { s with decision := d, current_batch_index := next_index }
    else { s with decision := d }

/-- `synthesizer_node` from `nodes/synthesizer.py`: with no chunks, the
empty-but-well-formed final summary; otherwise the model's structured result
or an error entry (`llmResult` is the outcome of
`summarize_project_from_folders`). -/
def synthesizer_node (llmResult : Except LLMClientError FinalSummary) (s : GraphState) :
    GraphState :=
  if s.summarized_chunks = [] then
    { s with final_summary := some ⟨"", [], ""⟩ }
  else
    match llmResult with
    | .ok r => { s with final_summary := some r }
    | .error e => { s with errors := s.errors ++ [⟨"synthesizer", e.message⟩] }

/-- The external-service oracles consumed by one run: each may observe the
full state at the moment of the call. -/
structure OracleEnv where
  fetchResult : GraphState → Except GitHubClientError (List RepoFile)
  summarizeResult : GraphState → Except LLMClientError String
  decideResult : GraphState → Except LLMClientError Decision
  synthesizeResult : GraphState → Except LLMClientError FinalSummary

/-- One pass selector → batch fetcher → summarizer → decider (the loop body
of the compiled graph; a fetch error propagates out of `ainvoke`). -/
def runIteration (settings : Settings) (env : OracleEnv) (s : GraphState) :
    Except GitHubClientError GraphState :=
  let s1 := selector_node settings s
  match batch_fetcher_node (env.fetchResult s1) s1 with
  | .error e => .error e
  | .ok s2 =>
    let s3 := summarizer_node (env.summarizeResult s2) s2
    .ok (decider_node settings (env.decideResult s3) s3)

/-- The compiled graph from `build_graph`, driven until the decider routes to
the synthesizer: `ok none` means the loop was still continuing when `fuel`
iterations had run (the recursion budget was exhausted), `ok (some final)`
is the state returned at END. -/
def runGraph (settings : Settings) (env : OracleEnv) :
    Nat → GraphState → Except GitHubClientError (Option GraphState)
  | 0, _ => .ok none
  | fuel + 1, s =>
    match runIteration settings env s with
    | .error e => .error e
    | .ok s' =>
      if s'.decision = .cont then runGraph settings env fuel s'
      else .ok (some (synthesizer_node (env.synthesizeResult s') s'))

/-- The five positions the engine can be at between node executions, plus
the terminal position after the synthesizer. -/
inductive GraphNode where
  | selector
  | fetcher
  | summarizer
  | decider
  | synthesizer
  | terminal
deriving DecidableEq, Repr

/-- The small-step transition relation of the compiled graph: the edges of
`build_graph` (workflow.py lines 61–66) with the conditional edge routed by
`_route_after_decider`.  A fetch error aborts the run and produces no new
configuration. -/
inductive GraphStep (settings : Settings) (env : OracleEnv) :
    GraphNode × GraphState → GraphNode × GraphState → Prop where
  | selector (s : GraphState) :
      GraphStep settings env (.selector, s) (.fetcher, selector_node settings s)
  | fetcher (s s' : GraphState)
      (h : batch_fetcher_node (env.fetchResult s) s = .ok s') :
      GraphStep settings env (.fetcher, s) (.summarizer, s')
  | summarizer (s : GraphState) :
      GraphStep settings env (.summarizer, s)
        (.decider, summarizer_node (env.summarizeResult s) s)
  | deciderContinue (s : GraphState)
      (h : (decider_node settings (env.decideResult s) s).decision = .cont) :
      GraphStep settings env (.decider, s)
        (.selector, decider_node settings (env.decideResult s) s)
  | deciderDone (s : GraphState)
      (h : (decider_node settings (env.decideResult s) s).decision ≠ .cont) :
      GraphStep settings env (.decider, s)
        (.synthesizer, decider_node settings (env.decideResult s) s)
  | synthesizer (s : GraphState) :
      GraphStep settings env (.synthesizer, s)
        (.terminal, synthesizer_node (env.synthesizeResult s) s)

/-- A configuration reachable from entering the graph at the selector. -/
def ReachableFrom (settings : Settings) (env : OracleEnv) (init : GraphState)
    (cfg : GraphNode × GraphState) : Prop :=
  Relation.ReflTransGen (GraphStep settings env) (.selector, init) cfg

/-! ## Lemmas about first-occurrence deduplication -/

theorem dedupFirstAux_mem (l : List String) : ∀ (seen : List String) (p : String),
    p ∈ dedupFirstAux seen l ↔ p ∈ l ∧ p ∉ seen := by
  induction l with
  | nil => intro seen p; simp [dedupFirstAux]
  | cons a l ih =>
    intro seen p
    by_cases ha : a ∈ seen
    · rw [dedupFirstAux, if_pos ha, ih]
      constructor
      · rintro ⟨hl, hs⟩; exact ⟨List.mem_cons_of_mem a hl, hs⟩
      · rintro ⟨hl, hs⟩
        rcases List.mem_cons.mp hl with rfl | hl
        · exact absurd ha hs
        · exact ⟨hl, hs⟩
    · rw [dedupFirstAux, if_neg ha, List.mem_cons, ih]
      constructor
      · rintro (rfl | ⟨hl, hs⟩)
        · exact ⟨List.mem_cons_self p l, ha⟩
        · refine ⟨List.mem_cons_of_mem a hl, ?_⟩
          intro hmem
          exact hs (List.mem_cons_of_mem a hmem)
      · rintro ⟨hl, hs⟩
        rcases List.mem_cons.mp hl with rfl | hl
        · exact Or.inl rfl
        · by_cases hpa : p = a
          · exact Or.inl hpa
          · refine Or.inr ⟨hl, ?_⟩
            intro hmem
            rcases List.mem_cons.mp hmem with h | h
            · exact hpa h
            · exact hs h

theorem dedupFirstAux_nodup (l : List String) : ∀ (seen : List String),
    (dedupFirstAux seen l).Nodup := by
  induction l with
  | nil => intro seen; simp [dedupFirstAux]
  | cons a l ih =>
    intro seen
    by_cases ha : a ∈ seen
    · simpa [dedupFirstAux, if_pos ha] using ih seen
    · simp only [dedupFirstAux, if_neg ha, List.nodup_cons]
      refine ⟨?_, ih _⟩
      intro hmem
      exact ((dedupFirstAux_mem l _ a).mp hmem).2 (.head _)

theorem dedupFirst_mem (l : List String) (p : String) :
    p ∈ dedupFirst l ↔ p ∈ l := by
  simp [dedupFirst, dedupFirstAux_mem]

theorem dedupFirst_nodup (l : List String) : (dedupFirst l).Nodup :=
  dedupFirstAux_nodup l []

/-! ## Lemmas about budgeted selection -/

theorem selectCandidates_nodup (repo_files : List RepoFile) (already : List String) :
    (selectCandidates repo_files already).Nodup := by
  unfold selectCandidates sortCandidates
  refine (List.perm_insertionSort _ _).nodup_iff.mpr ?_
  exact (dedupFirst_nodup _).filter _

theorem selectCandidates_mem (repo_files : List RepoFile) (already : List String)
    (p : String) :
    p ∈ selectCandidates repo_files already ↔
      p ∈ pathDictKeys repo_files ∧ p ∉ already ∧ ¬ should_skip_path p := by
  unfold selectCandidates sortCandidates
  rw [(List.perm_insertionSort _ _).mem_iff, List.mem_filter]
  simp

theorem selectLoop_sublist (repo_files : List RepoFile) (budget cap per_file : Nat) :
    ∀ (l : List String) (total count : Nat),
      (selectLoop repo_files budget cap per_file l total count).Sublist l := by
  intro l
  induction l with
  | nil => intro total count; simp [selectLoop]
  | cons p rest ih =>
    intro total count
    by_cases h1 : cap ≤ count
    · simp [selectLoop, if_pos h1]
    · simp only [selectLoop, if_neg h1]
      by_cases h2 : budget <
          total + effective_file_size (size_of_path repo_files p) budget per_file ∧ 0 < count
      · simp only [if_pos h2]; exact List.nil_sublist _
      · simp only [if_neg h2]
        exact (ih _ _).cons₂ p

theorem select_next_batch_sublist (repo_files : List RepoFile) (already : List String)
    (budget cap per_file : Nat) :
    (select_next_batch_by_budget repo_files already budget cap per_file).Sublist
      (selectCandidates repo_files already) :=
  selectLoop_sublist repo_files budget cap per_file _ 0 0

theorem select_next_batch_mem (repo_files : List RepoFile) (already : List String)
    (budget cap per_file : Nat) (p : String)
    (hp : p ∈ select_next_batch_by_budget repo_files already budget cap per_file) :
    p ∈ pathDictKeys repo_files ∧ p ∉ already ∧ ¬ should_skip_path p :=
  (selectCandidates_mem repo_files already p).mp
    ((select_next_batch_sublist repo_files already budget cap per_file).mem hp)

theorem select_next_batch_nodup (repo_files : List RepoFile) (already : List String)
    (budget cap per_file : Nat) :
    (select_next_batch_by_budget repo_files already budget cap per_file).Nodup :=
  (select_next_batch_sublist repo_files already budget cap per_file).nodup
    (selectCandidates_nodup repo_files already)

/-- The accumulated effective size of a batch: the quantity `total_chars`
tracks in `select_next_batch_by_budget`. -/
def batchEffSize (repo_files : List RepoFile) (budget per_file : Nat)
    (batch : List String) : Nat :=
  (batch.map fun p => effective_file_size (size_of_path repo_files p) budget per_file).sum

theorem selectLoop_total_le (repo_files : List RepoFile) (budget cap per_file : Nat) :
    ∀ (l : List String) (total count : Nat), 1 ≤ count → total ≤ budget →
      total + batchEffSize repo_files budget per_file
        (selectLoop repo_files budget cap per_file l total count) ≤ budget := by
  intro l
  induction l with
  | nil => intro total count _ htot; simpa [selectLoop, batchEffSize] using htot
  | cons p rest ih =>
    intro total count hcount htot
    by_cases h1 : cap ≤ count
    · simpa [selectLoop, if_pos h1, batchEffSize] using htot
    · rw [selectLoop, if_neg h1]
      by_cases h2 : budget <
          total + effective_file_size (size_of_path repo_files p) budget per_file ∧ 0 < count
      · simpa [if_pos h2, batchEffSize] using htot
      · rw [if_neg h2]
        have hle : total + effective_file_size (size_of_path repo_files p) budget per_file
            ≤ budget := by
          rcases Nat.lt_or_ge budget
              (total + effective_file_size (size_of_path repo_files p) budget per_file) with h | h
          · exact absurd ⟨h, hcount⟩ h2
          · exact h
        have := ih (total + effective_file_size (size_of_path repo_files p) budget per_file)
          (count + 1) (Nat.le_add_left 1 count) hle
        simp only [batchEffSize, List.map_cons, List.sum_cons] at *
        omega

theorem selectLoop_over_budget (repo_files : List RepoFile) (budget cap per_file : Nat) :
    ∀ (l : List String) (total count : Nat), 1 ≤ count → budget < total →
      selectLoop repo_files budget cap per_file l total count = [] := by
  intro l
  cases l with
  | nil => intro total count _ _; rfl
  | cons p rest =>
    intro total count hcount htot
    by_cases h1 : cap ≤ count
    · rw [selectLoop, if_pos h1]
    · rw [selectLoop, if_neg h1, if_pos]
      exact ⟨Nat.lt_of_lt_of_le htot (Nat.le_add_right _ _), hcount⟩

theorem selectLoop_length (repo_files : List RepoFile) (budget cap per_file : Nat) :
    ∀ (l : List String) (total count : Nat),
      (selectLoop repo_files budget cap per_file l total count).length ≤ cap - count := by
  intro l
  induction l with
  | nil => intro total count; simp [selectLoop]
  | cons p rest ih =>
    intro total count
    by_cases h1 : cap ≤ count
    · simp [selectLoop, if_pos h1]
    · rw [selectLoop, if_neg h1]
      by_cases h2 : budget <
          total + effective_file_size (size_of_path repo_files p) budget per_file ∧ 0 < count
      · simp [if_pos h2]
      · rw [if_neg h2]
        have := ih (total + effective_file_size (size_of_path repo_files p) budget per_file)
          (count + 1)
        simp only [List.length_cons]
        omega

/-- C4: with a file cap of at least one, budgeted selection returns at most
`fileCap` paths, and the accumulated effective size (each file counted as
`min(size, perFileCap)`, uncapped when `perFileCap` is 0) stays within the
character budget — except that a single oversized file may be admitted, in
which case it is the whole batch. -/
theorem C4_budgeted_selection_bounds (repo_files : List RepoFile)
    (already : List String) (budget cap per_file : Nat) (hcap : 1 ≤ cap) :
    (select_next_batch_by_budget repo_files already budget cap per_file).length ≤ cap ∧
      (batchEffSize repo_files budget per_file
          (select_next_batch_by_budget repo_files already budget cap per_file) ≤ budget ∨
        ∃ p, select_next_batch_by_budget repo_files already budget cap per_file = [p] ∧
          budget < effective_file_size (size_of_path repo_files p) budget per_file) := by
  constructor
  · have := selectLoop_length repo_files budget cap per_file
      (selectCandidates repo_files already) 0 0
    simpa [select_next_batch_by_budget] using this
  · unfold select_next_batch_by_budget
    cases hc : selectCandidates repo_files already with
    | nil => left; simp [selectLoop, batchEffSize]
    | cons p rest =>
      rw [selectLoop, if_neg (by omega : ¬ cap ≤ 0), if_neg (by simp)]
      by_cases hover : budget < effective_file_size (size_of_path repo_files p) budget per_file
      · right
        refine ⟨p, ?_, hover⟩
        rw [selectLoop_over_budget repo_files budget cap per_file rest _ 1 le_rfl
          (by simpa using hover)]
      · left
        have := selectLoop_total_le repo_files budget cap per_file rest
          (0 + effective_file_size (size_of_path repo_files p) budget per_file) (0 + 1)
          le_rfl (by omega)
        simp only [batchEffSize, List.map_cons, List.sum_cons, Nat.zero_add] at *
        omega

/-- Witness for `C4_budgeted_selection_bounds` at a concrete input. -/
theorem C4_budgeted_selection_bounds_witness :
    1 ≤ 2 ∧
      ((select_next_batch_by_budget
          [⟨"README.md", "This project does things."⟩,
           ⟨"src/a.py", "print(1)"⟩, ⟨"src/b.py", "print(2)"⟩] [] 1000 2 0).length ≤ 2 ∧
        (batchEffSize [⟨"README.md", "This project does things."⟩,
            ⟨"src/a.py", "print(1)"⟩, ⟨"src/b.py", "print(2)"⟩] 1000 0
            (select_next_batch_by_budget
              [⟨"README.md", "This project does things."⟩,
               ⟨"src/a.py", "print(1)"⟩, ⟨"src/b.py", "print(2)"⟩] [] 1000 2 0) ≤ 1000 ∨
          ∃ p, select_next_batch_by_budget
              [⟨"README.md", "This project does things."⟩,
               ⟨"src/a.py", "print(1)"⟩, ⟨"src/b.py", "print(2)"⟩] [] 1000 2 0 = [p] ∧
            1000 < effective_file_size
              (size_of_path [⟨"README.md", "This project does things."⟩,
                ⟨"src/a.py", "print(1)"⟩, ⟨"src/b.py", "print(2)"⟩] p) 1000 0)) :=
  ⟨by decide,
   C4_budgeted_selection_bounds
     [⟨"README.md", "This project does things."⟩,
      ⟨"src/a.py", "print(1)"⟩, ⟨"src/b.py", "print(2)"⟩] [] 1000 2 0 (by decide)⟩

/-- The eligible paths not yet processed. -/
def remainingPaths (repo_files : List RepoFile) (a : List String) : List String :=
  (eligiblePaths repo_files).filter fun p => ¬ p ∈ a

theorem remainingPaths_mem (repo_files : List RepoFile) (a : List String) (p : String) :
    p ∈ remainingPaths repo_files a ↔
      p ∈ pathDictKeys repo_files ∧ p ∉ a ∧ ¬ should_skip_path p := by
  simp only [remainingPaths, eligiblePaths, List.mem_filter]
  simp only [decide_eq_true_eq]
  tauto

theorem selectCandidates_mem_remaining (repo_files : List RepoFile) (a : List String)
    (p : String) :
    p ∈ selectCandidates repo_files a ↔ p ∈ remainingPaths repo_files a := by
  rw [selectCandidates_mem, remainingPaths_mem]

theorem selectCandidates_eq_nil_iff (repo_files : List RepoFile) (a : List String) :
    selectCandidates repo_files a = [] ↔ remainingPaths repo_files a = [] := by
  rw [List.eq_nil_iff_forall_not_mem, List.eq_nil_iff_forall_not_mem]
  constructor
  · intro h p hp
    exact h p ((selectCandidates_mem_remaining repo_files a p).mpr hp)
  · intro h p hp
    exact h p ((selectCandidates_mem_remaining repo_files a p).mp hp)

theorem select_next_batch_ne_nil (repo_files : List RepoFile) (already : List String)
    (budget cap per_file : Nat) (hcap : 1 ≤ cap)
    (h : remainingPaths repo_files already ≠ []) :
    select_next_batch_by_budget repo_files already budget cap per_file ≠ [] := by
  unfold select_next_batch_by_budget
  cases hc : selectCandidates repo_files already with
  | nil => exact absurd ((selectCandidates_eq_nil_iff repo_files already).mp hc) h
  | cons p rest =>
    rw [selectLoop, if_neg (by omega), if_neg (by simp)]
    simp

theorem select_eq_nil_of_remaining_nil (repo_files : List RepoFile) (already : List String)
    (budget cap per_file : Nat) (h : remainingPaths repo_files already = []) :
    select_next_batch_by_budget repo_files already budget cap per_file = [] := by
  unfold select_next_batch_by_budget
  rw [(selectCandidates_eq_nil_iff repo_files already).mpr h]
  rfl

theorem filter_sublist_of_imp {α : Type} (l : List α) (p q : α → Bool)
    (h : ∀ x, q x = true → p x = true) : (l.filter q).Sublist (l.filter p) := by
  induction l with
  | nil => simp
  | cons a l ih =>
    by_cases hq : q a = true
    · rw [List.filter_cons_of_pos hq, List.filter_cons_of_pos (h a hq)]
      exact ih.cons₂ a
    · rw [List.filter_cons_of_neg (by simpa using hq)]
      by_cases hp : p a = true
      · rw [List.filter_cons_of_pos hp]; exact ih.cons a
      · rw [List.filter_cons_of_neg (by simpa using hp)]; exact ih

theorem remaining_append_batch_lt (repo_files : List RepoFile) (a batch : List String)
    (hne : batch ≠ [])
    (hsub : ∀ p, p ∈ batch → p ∈ remainingPaths repo_files a) :
    (remainingPaths repo_files (a ++ batch)).length <
      (remainingPaths repo_files a).length := by
  have hsubl : (remainingPaths repo_files (a ++ batch)).Sublist
      (remainingPaths repo_files a) := by
    apply filter_sublist_of_imp
    intro x hx
    simp only [List.mem_append, decide_eq_true_eq] at *
    tauto
  rcases List.exists_mem_of_ne_nil batch hne with ⟨p0, hp0⟩
  have hp0r : p0 ∈ remainingPaths repo_files a := hsub p0 hp0
  have hp0n : p0 ∉ remainingPaths repo_files (a ++ batch) := by
    intro hmem
    rw [remainingPaths_mem] at hmem
    exact hmem.2.1 (List.mem_append.mpr (Or.inr hp0))
  rcases Nat.lt_or_ge (remainingPaths repo_files (a ++ batch)).length
      (remainingPaths repo_files a).length with h | h
  · exact h
  · exfalso
    have heq := hsubl.eq_of_length (Nat.le_antisymm hsubl.length_le h)
    rw [heq] at hp0n
    exact hp0n hp0r

theorem processedAfter_subset_eligible (repo_files : List RepoFile)
    (budget cap per_file : Nat) :
    ∀ (n : Nat) (p : String), p ∈ processedAfter repo_files budget cap per_file n →
      p ∈ eligiblePaths repo_files := by
  intro n
  induction n with
  | zero => intro p hp; simp [processedAfter] at hp
  | succ n ih =>
    intro p hp
    rw [processedAfter] at hp
    rcases List.mem_append.mp hp with h | h
    · exact ih p h
    · rcases select_next_batch_mem _ _ _ _ _ _ h with ⟨hk, _, hs⟩
      simp only [eligiblePaths, List.mem_filter]
      exact ⟨hk, by simpa using hs⟩

theorem processedAfter_nodup (repo_files : List RepoFile) (budget cap per_file : Nat) :
    ∀ (n : Nat), (processedAfter repo_files budget cap per_file n).Nodup := by
  intro n
  induction n with
  | zero => simp [processedAfter]
  | succ n ih =>
    rw [processedAfter]
    rw [List.nodup_append]
    refine ⟨ih, select_next_batch_nodup _ _ _ _ _, ?_⟩
    intro p hp hq
    exact (select_next_batch_mem _ _ _ _ _ p hq).2.1 hp

theorem processedAfter_remaining_le (repo_files : List RepoFile)
    (budget cap per_file : Nat) (hcap : 1 ≤ cap) :
    ∀ (n : Nat), (remainingPaths repo_files
        (processedAfter repo_files budget cap per_file n)).length ≤
      (eligiblePaths repo_files).length - n := by
  intro n
  induction n with
  | zero =>
    have : remainingPaths repo_files (processedAfter repo_files budget cap per_file 0) =
        eligiblePaths repo_files := by
      simp [processedAfter, remainingPaths]
    rw [this]; omega
  | succ n ih =>
    by_cases hrem : remainingPaths repo_files
        (processedAfter repo_files budget cap per_file n) = []
    · have hsel := select_eq_nil_of_remaining_nil repo_files
        (processedAfter repo_files budget cap per_file n) budget cap per_file hrem
      have : processedAfter repo_files budget cap per_file (n + 1) =
          processedAfter repo_files budget cap per_file n := by
        rw [processedAfter, hsel, List.append_nil]
      rw [this, hrem]
      simp
    · have hstep := remaining_append_batch_lt repo_files
        (processedAfter repo_files budget cap per_file n)
        (select_next_batch_by_budget repo_files
          (processedAfter repo_files budget cap per_file n) budget cap per_file)
        (select_next_batch_ne_nil _ _ _ _ _ hcap hrem)
        (fun p hp => by
          rcases select_next_batch_mem _ _ _ _ _ p hp with ⟨hk, ha, hs⟩
          rw [remainingPaths_mem]
          exact ⟨hk, ha, hs⟩)
      rw [processedAfter]
      omega

theorem processedAfter_complete (repo_files : List RepoFile)
    (budget cap per_file : Nat) (hcap : 1 ≤ cap) :
    remainingPaths repo_files (processedAfter repo_files budget cap per_file
      (eligiblePaths repo_files).length) = [] := by
  have h := processedAfter_remaining_le repo_files budget cap per_file hcap
    (eligiblePaths repo_files).length
  have : (remainingPaths repo_files (processedAfter repo_files budget cap per_file
      (eligiblePaths repo_files).length)).length = 0 := by omega
  exact List.eq_nil_of_length_eq_zero this

/-- The three files of the spec's end-to-end selection example. -/
def c5ExampleFiles : List RepoFile :=
  [⟨"README.md", "This project does things."⟩,
   ⟨"src/a.py", "print(1)"⟩,
   ⟨"src/b.py", "print(2)"⟩]

/-- C5: budgeted selection never returns an already-processed path; with a
file cap of at least one, folding each returned batch into the processed set
covers every eligible path exactly once within `|EligiblePathSet|` calls and
then yields the empty batch; and the spec's three-file example runs exactly
as stated (priority order, then leftovers, then empty). -/
theorem C5_selection_no_repeat_and_exhaustion :
    (∀ (repo_files : List RepoFile) (already : List String)
        (budget cap per_file : Nat) (p : String),
        p ∈ select_next_batch_by_budget repo_files already budget cap per_file →
        p ∉ already) ∧
    (∀ (repo_files : List RepoFile) (budget cap per_file : Nat), 1 ≤ cap →
        ((processedAfter repo_files budget cap per_file
            (eligiblePaths repo_files).length).Nodup ∧
          (∀ p, p ∈ processedAfter repo_files budget cap per_file
              (eligiblePaths repo_files).length ↔ p ∈ eligiblePaths repo_files) ∧
          select_next_batch_by_budget repo_files
            (processedAfter repo_files budget cap per_file
              (eligiblePaths repo_files).length) budget cap per_file = [])) ∧
    (select_next_batch_by_budget c5ExampleFiles [] 1000 2 0 = ["README.md", "src/a.py"] ∧
      select_next_batch_by_budget c5ExampleFiles ["README.md", "src/a.py"] 1000 2 0 =
        ["src/b.py"] ∧
      select_next_batch_by_budget c5ExampleFiles
        ["README.md", "src/a.py", "src/b.py"] 1000 2 0 = []) := by
  refine ⟨?_, ?_, by decide, by decide, by decide⟩
  · intro repo_files already budget cap per_file p hp
    exact (select_next_batch_mem repo_files already budget cap per_file p hp).2.1
  · intro repo_files budget cap per_file hcap
    refine ⟨processedAfter_nodup repo_files budget cap per_file _, ?_, ?_⟩
    · intro p
      constructor
      · exact processedAfter_subset_eligible repo_files budget cap per_file _ p
      · intro hp
        by_contra hnot
        have : p ∈ remainingPaths repo_files (processedAfter repo_files budget cap per_file
            (eligiblePaths repo_files).length) := by
          simp only [remainingPaths, List.mem_filter, decide_eq_true_eq]
          exact ⟨hp, hnot⟩
        rw [processedAfter_complete repo_files budget cap per_file hcap] at this
        simp at this
    · exact select_eq_nil_of_remaining_nil repo_files _ budget cap per_file
        (processedAfter_complete repo_files budget cap per_file hcap)

/-- Witness for `C5_selection_no_repeat_and_exhaustion` at a concrete input
(the exhaustion part applied to the example file set with `fileCap = 2`). -/
theorem C5_selection_no_repeat_and_exhaustion_witness :
    1 ≤ 2 ∧
      ((processedAfter c5ExampleFiles 1000 2 0 (eligiblePaths c5ExampleFiles).length).Nodup ∧
        (∀ p, p ∈ processedAfter c5ExampleFiles 1000 2 0
            (eligiblePaths c5ExampleFiles).length ↔ p ∈ eligiblePaths c5ExampleFiles) ∧
        select_next_batch_by_budget c5ExampleFiles
          (processedAfter c5ExampleFiles 1000 2 0 (eligiblePaths c5ExampleFiles).length)
          1000 2 0 = []) :=
  ⟨by decide, C5_selection_no_repeat_and_exhaustion.2.1 c5ExampleFiles 1000 2 0 (by decide)⟩

/-! ## C9: the lexical-overlap heuristic -/

/-- Modelled from the spec: `overlap = |tokens(new) ∩ tokens(priorConcat)| /
|tokens(new)|` over lowercase whitespace tokens, as exact set cardinalities. -/
def specOverlapFrac (previous_summaries : List String) (current_summary : String) : ℚ :=
  (((pyTokens current_summary).toFinset ∩
      (combinedTokens previous_summaries).toFinset).card : ℚ) /
    ((pyTokens current_summary).toFinset.card : ℚ)

theorem dedupFirst_toFinset (l : List String) : (dedupFirst l).toFinset = l.toFinset := by
  ext a
  simp [List.mem_toFinset, dedupFirst_mem]

theorem dedupFirst_length (l : List String) : (dedupFirst l).length = l.toFinset.card := by
  rw [← dedupFirst_toFinset, List.toFinset_card_of_nodup (dedupFirst_nodup l)]

theorem dedupFirst_eq_nil_iff (l : List String) : dedupFirst l = [] ↔ l = [] := by
  constructor
  · intro h
    cases l with
    | nil => rfl
    | cons a l =>
      exfalso
      have : a ∈ dedupFirst (a :: l) := (dedupFirst_mem _ a).mpr (List.mem_cons_self a l)
      rw [h] at this
      simp at this
  · rintro rfl; rfl

theorem overlap_count_eq_inter_card (cur comb : List String) :
    ((dedupFirst cur).filter fun w => w ∈ comb).length =
      (cur.toFinset ∩ comb.toFinset).card := by
  have hnodup : ((dedupFirst cur).filter fun w => w ∈ comb).Nodup :=
    (dedupFirst_nodup cur).filter _
  rw [← List.toFinset_card_of_nodup hnodup]
  congr 1
  ext a
  simp only [List.mem_toFinset, List.mem_filter, Finset.mem_inter, dedupFirst_mem,
    decide_eq_true_eq]

/-- C9: with at least one prior summary and a newest summary that tokenizes to
at least one word, the heuristic decider returns done exactly when the
overlap fraction `|tokens(new) ∩ tokens(priorConcat)| / |tokens(new)|`
reaches 0.7; in particular a fraction of 1 yields done and a fraction of 0
yields continue. -/
theorem C9_heuristic_overlap_threshold :
    (∀ (previous_summaries : List String) (current_summary : String),
        previous_summaries ≠ [] → pyTokens current_summary ≠ [] →
        (heuristic_continue_or_done previous_summaries current_summary = .done ↔
          (7 : ℚ) / 10 ≤ specOverlapFrac previous_summaries current_summary)) ∧
    (∀ (previous_summaries : List String) (current_summary : String),
        previous_summaries ≠ [] → pyTokens current_summary ≠ [] →
        specOverlapFrac previous_summaries current_summary = 1 →
        heuristic_continue_or_done previous_summaries current_summary = .done) ∧
    (∀ (previous_summaries : List String) (current_summary : String),
        previous_summaries ≠ [] → pyTokens current_summary ≠ [] →
        specOverlapFrac previous_summaries current_summary = 0 →
        heuristic_continue_or_done previous_summaries current_summary = .cont) := by
  have hmain : ∀ (previous_summaries : List String) (current_summary : String),
      previous_summaries ≠ [] → pyTokens current_summary ≠ [] →
      (heuristic_continue_or_done previous_summaries current_summary = .done ↔
        (7 : ℚ) / 10 ≤ specOverlapFrac previous_summaries current_summary) := by
    intro previous current hprev htok
    have hwords : currentWordSet current ≠ [] := by
      intro h
      exact htok ((dedupFirst_eq_nil_iff _).mp h)
    have hlenpos : 0 < (currentWordSet current).length := List.length_pos.mpr hwords
    unfold heuristic_continue_or_done
    rw [if_neg hprev, if_neg hwords]
    have hcount : ((currentWordSet current).filter
        (fun w => w ∈ combinedTokens previous)).length =
        ((pyTokens current).toFinset ∩ (combinedTokens previous).toFinset).card :=
      overlap_count_eq_inter_card (pyTokens current) (combinedTokens previous)
    have hlen : (currentWordSet current).length = (pyTokens current).toFinset.card :=
      dedupFirst_length (pyTokens current)
    rw [specOverlapFrac, ← hcount, ← hlen]
    have hq : (7 : ℚ) / 10 ≤
        ((((currentWordSet current).filter fun w => w ∈ combinedTokens previous).length : ℚ) /
          ((currentWordSet current).length : ℚ)) ↔
        7 * (currentWordSet current).length ≤
          10 * ((currentWordSet current).filter fun w => w ∈ combinedTokens previous).length := by
      rw [div_le_div_iff₀ (by norm_num) (by exact_mod_cast hlenpos)]
      constructor
      · intro h
        have h' : (7 : ℚ) * (currentWordSet current).length ≤
            10 * ((currentWordSet current).filter fun w => w ∈ combinedTokens previous).length := by
          calc (7 : ℚ) * (currentWordSet current).length ≤
              (((currentWordSet current).filter fun w => w ∈ combinedTokens previous).length : ℚ)
                * 10 := h
            _ = 10 * ((currentWordSet current).filter
                fun w => w ∈ combinedTokens previous).length := by ring
        exact_mod_cast h'
      · intro h
        have h' : (7 : ℚ) * (currentWordSet current).length ≤
            10 * ((currentWordSet current).filter fun w => w ∈ combinedTokens previous).length := by
          exact_mod_cast h
        calc (7 : ℚ) * (currentWordSet current).length ≤
            10 * ((currentWordSet current).filter
              fun w => w ∈ combinedTokens previous).length := h'
          _ = (((currentWordSet current).filter fun w => w ∈ combinedTokens previous).length : ℚ)
              * 10 := by ring
    rw [hq]
    by_cases hth : 7 * (currentWordSet current).length ≤
        10 * ((currentWordSet current).filter fun w => w ∈ combinedTokens previous).length
    · rw [if_pos hth]; simp [hth]
    · rw [if_neg hth]; simp [hth]
  refine ⟨hmain, ?_, ?_⟩
  · intro previous current hprev htok hone
    rw [hmain previous current hprev htok, hone]
    norm_num
  · intro previous current hprev htok hzero
    have h := hmain previous current hprev htok
    rcases hdec : heuristic_continue_or_done previous current with _ | _
    · rfl
    · exfalso
      have := h.mp hdec
      rw [hzero] at this
      norm_num at this

/-- Witness for `C9_heuristic_overlap_threshold`: a fully overlapping summary
is declared done, a disjoint one continues. -/
theorem C9_heuristic_overlap_threshold_witness :
    (["the project parses files"] ≠ ([] : List String) ∧
      pyTokens "parses the files" ≠ [] ∧
      (heuristic_continue_or_done ["the project parses files"] "parses the files" = .done ↔
        (7 : ℚ) / 10 ≤ specOverlapFrac ["the project parses files"] "parses the files")) ∧
    heuristic_continue_or_done ["the project parses files"] "parses the files" = .done ∧
    heuristic_continue_or_done ["alpha beta"] "gamma delta" = .cont :=
  ⟨⟨by decide, by decide,
    C9_heuristic_overlap_threshold.1 ["the project parses files"] "parses the files"
      (by decide) (by decide)⟩,
   by decide, by decide⟩

/-- C7: the summarizer's commit is atomic.  On model success it appends
exactly one `{paths, summary}` chunk and extends the processed-path list by
exactly the batch (and touches nothing else, in particular not the error
list); on a model error it appends one structured error entry and leaves
both the chunks and the processed paths unchanged; on an empty batch it is
the identity. -/
theorem C7_summarizer_commit_atomicity :
    (∀ (s : GraphState) (raw : String), s.current_batch_paths ≠ [] →
        (summarizer_node (.ok raw) s).summarized_chunks =
          s.summarized_chunks ++ [⟨s.current_batch_paths, pyStrip raw⟩] ∧
        (summarizer_node (.ok raw) s).already_summarized_paths =
          s.already_summarized_paths ++ s.current_batch_paths ∧
        (summarizer_node (.ok raw) s).errors = s.errors) ∧
    (∀ (s : GraphState) (e : LLMClientError), s.current_batch_paths ≠ [] →
        (summarizer_node (.error e) s).summarized_chunks = s.summarized_chunks ∧
        (summarizer_node (.error e) s).already_summarized_paths =
          s.already_summarized_paths ∧
        (summarizer_node (.error e) s).errors =
          s.errors ++ [⟨"summarizer", e.message⟩]) ∧
    (∀ (s : GraphState) (r : Except LLMClientError String),
        s.current_batch_paths = [] → summarizer_node r s = s) := by
  refine ⟨?_, ?_, ?_⟩
  · intro s raw h
    simp [summarizer_node, h]
  · intro s e h
    simp [summarizer_node, h]
  · intro s r h
    simp [summarizer_node, h]

/-- Witness for `C7_summarizer_commit_atomicity` at a concrete state. -/
theorem C7_summarizer_commit_atomicity_witness :
    ((mkInitialState "cid" "u" [] []).current_batch_paths = [] ∧
      summarizer_node (.ok "text") (mkInitialState "cid" "u" [] []) =
        mkInitialState "cid" "u" [] []) ∧
    (let s := { mkInitialState "cid" "u" [] [] with current_batch_paths := ["a.py"] }
     (summarizer_node (.ok " a summary ") s).summarized_chunks =
        s.summarized_chunks ++ [⟨["a.py"], pyStrip " a summary "⟩] ∧
      (summarizer_node (.ok " a summary ") s).already_summarized_paths =
        s.already_summarized_paths ++ ["a.py"] ∧
      (summarizer_node (.ok " a summary ") s).errors = s.errors) :=
  ⟨⟨by decide,
    C7_summarizer_commit_atomicity.2.2 (mkInitialState "cid" "u" [] [])
      (.ok "text") (by decide)⟩,
   by
     have h := C7_summarizer_commit_atomicity.1
       { mkInitialState "cid" "u" [] [] with current_batch_paths := ["a.py"] }
       " a summary " (by decide)
     exact h⟩

theorem select_empty_files (a : List String) (b c d : Nat) :
    select_next_batch_by_budget [] a b c d = [] := rfl

/-- C2: `run_summary_graph`'s initial state carries no repo files under the
key the selector and summarizer read (`all_repo_files`), no node ever writes
that key, and consequently — for every URL, tree-entry list, planned-batch
list, oracle environment and positive recursion budget — the run finishes in
one pass with no chunk, no processed path, an empty batch, decision done, and
`final_summary = {summary: "", technologies: [], structure: ""}`. -/
theorem C2_all_repo_files_never_populated :
    (∀ (cid url : String) (entries : List TreeEntry) (planned : List (List String)),
        (mkInitialState cid url entries planned).all_repo_files = []) ∧
    (∀ (settings : Settings) (s : GraphState),
        (selector_node settings s).all_repo_files = s.all_repo_files) ∧
    (∀ (r : Except GitHubClientError (List RepoFile)) (s s' : GraphState),
        batch_fetcher_node r s = .ok s' → s'.all_repo_files = s.all_repo_files) ∧
    (∀ (r : Except LLMClientError String) (s : GraphState),
        (summarizer_node r s).all_repo_files = s.all_repo_files) ∧
    (∀ (settings : Settings) (r : Except LLMClientError Decision) (s : GraphState),
        (decider_node settings r s).all_repo_files = s.all_repo_files) ∧
    (∀ (r : Except LLMClientError FinalSummary) (s : GraphState),
        (synthesizer_node r s).all_repo_files = s.all_repo_files) ∧
    (∀ (settings : Settings) (env : OracleEnv) (cid url : String)
        (entries : List TreeEntry) (planned : List (List String)) (fuel : Nat),
        1 ≤ fuel →
        ∃ fin, runGraph settings env fuel (mkInitialState cid url entries planned) =
            .ok (some fin) ∧
          fin.final_summary = some ⟨"", [], ""⟩ ∧
          fin.summarized_chunks = [] ∧
          fin.already_summarized_paths = [] ∧
          fin.current_batch_paths = [] ∧
          fin.decision = .done) := by
  refine ⟨fun _ _ _ _ => rfl, fun _ _ => rfl, ?_, ?_, ?_, ?_, ?_⟩
  · intro r s s' h
    simp only [batch_fetcher_node] at h
    by_cases h1 : pyStrip s.repo_github_url = ""
    · rw [if_pos h1] at h; cases h; rfl
    · rw [if_neg h1] at h
      by_cases h2 : entries_for_batch s.repo_tree_entries s.current_batch_paths = []
      · rw [if_pos h2] at h; cases h; rfl
      · rw [if_neg h2] at h
        cases r with
        | ok files => cases h; rfl
        | error e => cases h
  · intro r s
    unfold summarizer_node
    split
    · rfl
    · cases r with
      | ok raw => rfl
      | error e => rfl
  · intro settings r s
    simp only [decider_node]
    repeat' split
    all_goals rfl
  · intro r s
    unfold synthesizer_node
    split
    · rfl
    · cases r with
      | ok v => rfl
      | error e => rfl
  · intro settings env cid url entries planned fuel hfuel
    obtain ⟨k, rfl⟩ : ∃ k, fuel = k + 1 := ⟨fuel - 1, by omega⟩
    by_cases hurl : pyStrip url = ""
    · refine ⟨{ mkInitialState cid url entries planned with
          errors := [⟨"batch_fetcher", "missing repo_github_url"⟩],
          decision := .done,
          final_summary := some ⟨"", [], ""⟩ }, ?_, rfl, rfl, rfl, rfl, rfl⟩
      simp [runGraph, runIteration, selector_node, batch_fetcher_node, summarizer_node,
        decider_node, synthesizer_node, mkInitialState, entries_for_batch, hurl,
        select_empty_files]
    · refine ⟨{ mkInitialState cid url entries planned with
          decision := .done,
          final_summary := some ⟨"", [], ""⟩ }, ?_, rfl, rfl, rfl, rfl, rfl⟩
      simp [runGraph, runIteration, selector_node, batch_fetcher_node, summarizer_node,
        decider_node, synthesizer_node, mkInitialState, entries_for_batch, hurl,
        select_empty_files]

/-- Witness for `C2_all_repo_files_never_populated` at a concrete run. -/
theorem C2_all_repo_files_never_populated_witness :
    (1 : Nat) ≤ 1 ∧
      ∃ fin, runGraph ⟨50000, 50, 25000, 20, false⟩
          ⟨fun _ => .ok [], fun _ => .ok "", fun _ => .ok .done, fun _ => .ok ⟨"", [], ""⟩⟩
          1 (mkInitialState "cid" "https://github.com/o/r"
            [⟨"a.py", some 5, some "sha1"⟩] [["a.py"]]) = .ok (some fin) ∧
        fin.final_summary = some ⟨"", [], ""⟩ ∧
        fin.summarized_chunks = [] ∧
        fin.already_summarized_paths = [] ∧
        fin.current_batch_paths = [] ∧
        fin.decision = .done :=
  ⟨le_rfl,
   C2_all_repo_files_never_populated.2.2.2.2.2.2 ⟨50000, 50, 25000, 20, false⟩
     ⟨fun _ => .ok [], fun _ => .ok "", fun _ => .ok .done, fun _ => .ok ⟨"", [], ""⟩⟩
     "cid" "https://github.com/o/r" [⟨"a.py", some 5, some "sha1"⟩] [["a.py"]] 1 le_rfl⟩

/-- The settings of the C1 run: `SUMMARY_MAX_ITERATIONS = 1`, heuristic
decider. -/
def c1Settings : Settings := ⟨50000, 50, 25000, 1, false⟩

/-- Oracles for the C1 run: every external call succeeds. -/
def c1Env : OracleEnv :=
  ⟨fun _ => .ok [], fun _ => .ok "alpha beta", fun _ => .ok .done,
   fun _ => .ok ⟨"s", [], ""⟩⟩

/-- The C1 run's entry state: one repo file visible to the selector and a
three-batch plan. -/
def c1Init : GraphState :=
  { mkInitialState "cid" "https://github.com/o/r" []
      [["a.py"], ["a.py"], ["a.py"]] with
    all_repo_files := [⟨"a.py", "print(1)"⟩] }

/-- C1 (refuting the spec's safety ceiling): the decider never touches
`iteration_count` (it stays at its initial value through every pass), the
whole engine's behaviour is independent of `SUMMARY_MAX_ITERATIONS`, and in
a concrete run with `SUMMARY_MAX_ITERATIONS = 1` and a content decision of
continue the engine is still looping after two full passes (fuel 2 is
exhausted), completes on the third pass, and ends with `iteration_count`
still 0. -/
theorem C1_iteration_ceiling_not_enforced :
    (∀ (settings : Settings) (r : Except LLMClientError Decision) (s : GraphState),
        (decider_node settings r s).iteration_count = s.iteration_count) ∧
    (∀ (settings : Settings) (m : Nat) (env : OracleEnv) (fuel : Nat) (s : GraphState),
        runGraph { settings with SUMMARY_MAX_ITERATIONS := m } env fuel s =
          runGraph settings env fuel s) ∧
    runGraph c1Settings c1Env 2 c1Init = .ok none ∧
    (runGraph c1Settings c1Env 3 c1Init).map (Option.map GraphState.iteration_count) =
      .ok (some 0) := by
  refine ⟨?_, ?_, by rfl, by rfl⟩
  · intro settings r s
    simp only [decider_node]
    repeat' split
    all_goals rfl
  · intro settings m env fuel
    induction fuel with
    | zero => intro s; rfl
    | succ k ih =>
      intro s
      have hiter : runIteration { settings with SUMMARY_MAX_ITERATIONS := m } env s =
          runIteration settings env s := rfl
      simp only [runGraph, hiter]
      cases hres : runIteration settings env s with
      | error e => rfl
      | ok s' =>
        by_cases hd : s'.decision = .cont <;> simp [hd, ih]

/-- The invariant of C3: the processed-path list is exactly the union of the
chunk path lists, and distinct chunks have disjoint path lists. -/
def ChunksInvariant (s : GraphState) : Prop :=
  (∀ p, p ∈ s.already_summarized_paths ↔ ∃ c ∈ s.summarized_chunks, p ∈ c.paths) ∧
  List.Pairwise (fun c₁ c₂ => ∀ p, p ∈ c₁.paths → p ∉ c₂.paths) s.summarized_chunks

/-- The inductive strengthening: between the selector and the summarizer the
pending batch is duplicate-free and disjoint from the processed paths. -/
def ChunksInvariantAt (cfg : GraphNode × GraphState) : Prop :=
  ChunksInvariant cfg.2 ∧
  ((cfg.1 = .fetcher ∨ cfg.1 = .summarizer) →
    cfg.2.current_batch_paths.Nodup ∧
    ∀ p ∈ cfg.2.current_batch_paths, p ∉ cfg.2.already_summarized_paths)

theorem batch_fetcher_preserves_core (r : Except GitHubClientError (List RepoFile))
    (s s' : GraphState) (h : batch_fetcher_node r s = .ok s') :
    s'.summarized_chunks = s.summarized_chunks ∧
    s'.already_summarized_paths = s.already_summarized_paths ∧
    s'.current_batch_paths = s.current_batch_paths := by
  simp only [batch_fetcher_node] at h
  by_cases h1 : pyStrip s.repo_github_url = ""
  · rw [if_pos h1] at h; cases h; exact ⟨rfl, rfl, rfl⟩
  · rw [if_neg h1] at h
    by_cases h2 : entries_for_batch s.repo_tree_entries s.current_batch_paths = []
    · rw [if_pos h2] at h; cases h; exact ⟨rfl, rfl, rfl⟩
    · rw [if_neg h2] at h
      cases r with
      | ok files => cases h; exact ⟨rfl, rfl, rfl⟩
      | error e => cases h

theorem decider_preserves_core (settings : Settings)
    (r : Except LLMClientError Decision) (s : GraphState) :
    (decider_node settings r s).summarized_chunks = s.summarized_chunks ∧
    (decider_node settings r s).already_summarized_paths =
      s.already_summarized_paths := by
  simp only [decider_node]
  repeat' split
  all_goals exact ⟨rfl, rfl⟩

theorem synthesizer_preserves_core (r : Except LLMClientError FinalSummary)
    (s : GraphState) :
    (synthesizer_node r s).summarized_chunks = s.summarized_chunks ∧
    (synthesizer_node r s).already_summarized_paths =
      s.already_summarized_paths := by
  simp only [synthesizer_node]
  repeat' split
  all_goals exact ⟨rfl, rfl⟩

theorem summarizer_invariant (raw : String) (s : GraphState)
    (hinv : ChunksInvariant s)
    (hdisj : ∀ p ∈ s.current_batch_paths, p ∉ s.already_summarized_paths) :
    ChunksInvariant (summarizer_node (.ok raw) s) := by
  by_cases hcb : s.current_batch_paths = []
  · simpa [summarizer_node, hcb] using hinv
  · rcases hinv with ⟨hunion, hpair⟩
    simp only [summarizer_node, if_neg hcb]
    constructor
    · intro p
      simp only [List.mem_append, List.mem_cons]
      constructor
      · rintro (hp | hp)
        · rcases (hunion p).mp hp with ⟨c, hc, hpc⟩
          exact ⟨c, Or.inl hc, hpc⟩
        · exact ⟨⟨s.current_batch_paths, pyStrip raw⟩, Or.inr (Or.inl rfl), hp⟩
      · rintro ⟨c, hc | hc | hc, hpc⟩
        · exact Or.inl ((hunion p).mpr ⟨c, hc, hpc⟩)
        · subst hc; exact Or.inr hpc
        · simp at hc
    · rw [List.pairwise_append]
      refine ⟨hpair, List.pairwise_singleton _ _, ?_⟩
      intro c hc c' hc' p hpc
      rcases List.mem_singleton.mp hc' with rfl
      intro hpb
      exact hdisj p hpb ((hunion p).mpr ⟨c, hc, hpc⟩)

/-- C3: in every configuration the engine can reach from a fresh initial
state (empty processed-path list, no chunks), the processed-path list is
exactly the union of the `paths` of all summarized chunks, and no path
occurs in two different chunks. -/
theorem C3_processed_paths_invariant (settings : Settings) (env : OracleEnv)
    (init : GraphState) (cfg : GraphNode × GraphState)
    (halready : init.already_summarized_paths = [])
    (hchunks : init.summarized_chunks = [])
    (hreach : ReachableFrom settings env init cfg) :
    (∀ p, p ∈ cfg.2.already_summarized_paths ↔
        ∃ c ∈ cfg.2.summarized_chunks, p ∈ c.paths) ∧
      List.Pairwise (fun c₁ c₂ => ∀ p, p ∈ c₁.paths → p ∉ c₂.paths)
        cfg.2.summarized_chunks := by
  have hstrong : ChunksInvariantAt cfg := by
    induction hreach with
    | refl =>
      refine ⟨⟨?_, ?_⟩, ?_⟩
      · intro p; rw [halready, hchunks]; simp
      · rw [hchunks]; exact List.Pairwise.nil
      · rintro (h | h) <;> cases h
    | tail hsteps hstep ih =>
      rcases hstep with s | ⟨s, s', hok⟩ | s | ⟨s, hd⟩ | ⟨s, hd⟩ | s
      · -- selector
        rcases ih with ⟨⟨hunion, hpair⟩, _⟩
        refine ⟨⟨hunion, hpair⟩, ?_⟩
        intro _
        constructor
        · exact select_next_batch_nodup _ _ _ _ _
        · intro p hp
          exact (select_next_batch_mem _ _ _ _ _ p hp).2.1
      · -- batch fetcher
        rcases ih with ⟨⟨hunion, hpair⟩, hside⟩
        rcases batch_fetcher_preserves_core _ _ _ hok with ⟨hc, ha, hb⟩
        refine ⟨⟨?_, ?_⟩, ?_⟩
        · intro p; rw [hc, ha]; exact hunion p
        · rw [hc]; exact hpair
        · intro _
          rw [hb, ha]
          exact hside (Or.inl rfl)
      · -- summarizer
        rcases ih with ⟨hinv, hside⟩
        rcases hside (Or.inr rfl) with ⟨hnodup, hdisj⟩
        refine ⟨?_, ?_⟩
        · cases hres : env.summarizeResult s with
          | ok raw =>
            exact summarizer_invariant raw s hinv hdisj
          | error e =>
            by_cases hcb : s.current_batch_paths = []
            · simpa [summarizer_node, hcb] using hinv
            · simpa [summarizer_node, hcb] using hinv
        · rintro (h | h) <;> cases h
      · -- decider, continue
        rcases ih with ⟨⟨hunion, hpair⟩, _⟩
        rcases decider_preserves_core settings (env.decideResult s) s with ⟨hc, ha⟩
        refine ⟨⟨?_, ?_⟩, ?_⟩
        · intro p; rw [hc, ha]; exact hunion p
        · rw [hc]; exact hpair
        · rintro (h | h) <;> cases h
      · -- decider, done
        rcases ih with ⟨⟨hunion, hpair⟩, _⟩
        rcases decider_preserves_core settings (env.decideResult s) s with ⟨hc, ha⟩
        refine ⟨⟨?_, ?_⟩, ?_⟩
        · intro p; rw [hc, ha]; exact hunion p
        · rw [hc]; exact hpair
        · rintro (h | h) <;> cases h
      · -- synthesizer
        rcases ih with ⟨⟨hunion, hpair⟩, _⟩
        rcases synthesizer_preserves_core (env.synthesizeResult s) s with ⟨hc, ha⟩
        refine ⟨⟨?_, ?_⟩, ?_⟩
        · intro p; rw [hc, ha]; exact hunion p
        · rw [hc]; exact hpair
        · rintro (h | h) <;> cases h
  exact hstrong.1

/-- Witness for `C3_processed_paths_invariant` at a concrete reachable
configuration (the entry configuration of a run over one repo file). -/
theorem C3_processed_paths_invariant_witness :
    (c1Init.already_summarized_paths = [] ∧ c1Init.summarized_chunks = []) ∧
      ((∀ p, p ∈ c1Init.already_summarized_paths ↔
          ∃ c ∈ c1Init.summarized_chunks, p ∈ c.paths) ∧
        List.Pairwise (fun c₁ c₂ => ∀ p, p ∈ c₁.paths → p ∉ c₂.paths)
          c1Init.summarized_chunks) :=
  ⟨⟨rfl, rfl⟩,
   C3_processed_paths_invariant c1Settings c1Env c1Init (.selector, c1Init) rfl rfl
     Relation.ReflTransGen.refl⟩

/-- The per-entry decode outcome used to state C6: the file produced by a
successful request, `none` when the blob is silently skipped. -/
def decodedBlob (b64decode : String → Option (List Nat))
    (utf8decode : List Nat → Option String) (resps : TreeEntry → BlobHttpResult)
    (e : TreeEntry) : Option RepoFile :=
  match fetch_single_blob b64decode utf8decode e (resps e) with
  | .ok v => v
  | .error _ => none

theorem collectBlobResults_all_ok :
    ∀ (rs : List (Except GitHubClientError (Option RepoFile))),
      (∀ r ∈ rs, ∃ v, r = .ok v) →
      collectBlobResults rs =
        .ok (rs.filterMap fun r => match r with | .ok v => v | .error _ => none) := by
  intro rs
  induction rs with
  | nil => intro _; rfl
  | cons r rest ih =>
    intro h
    rcases h r (List.mem_cons_self r rest) with ⟨v, rfl⟩
    have hrest := ih fun r hr => h r (List.mem_cons_of_mem _ hr)
    cases v with
    | none => simpa [collectBlobResults, List.filterMap_cons] using hrest
    | some f => simp [collectBlobResults, List.filterMap_cons, hrest, Except.map]

theorem collectBlobResults_error :
    ∀ (rs : List (Except GitHubClientError (Option RepoFile)))
      (err : GitHubClientError), (.error err) ∈ rs →
      ∃ err', collectBlobResults rs = .error err' := by
  intro rs
  induction rs with
  | nil => intro err h; simp at h
  | cons r rest ih =>
    intro err h
    cases r with
    | error e => exact ⟨e, rfl⟩
    | ok v =>
      rcases List.mem_cons.mp h with habs | h
      · cases habs
      · rcases ih err h with ⟨err', herr⟩
        cases v with
        | none => exact ⟨err', by simpa [collectBlobResults] using herr⟩
        | some f =>
          refine ⟨err', ?_⟩
          simp [collectBlobResults, herr, Except.map]

/-- C6: the blob fetch issues exactly one request per sha-bearing entry and
none for the rest (its outcome depends only on the responses of those
requests); when every issued request succeeds, the result is exactly the
ordered list of entries whose base64 payload decoded as UTF-8 text, the
others being silently omitted — in particular a payload not declared base64
is skipped, a well-formed payload is returned decoded — and when any single
request fails with a (transient or permanent) `GitHubClientError`, the whole
call raises. -/
theorem C6_blob_fetch_decode_and_errors :
    (∀ (entries : List TreeEntry), (blobRequestEntries entries).Sublist entries) ∧
    (∀ (b64decode : String → Option (List Nat)) (utf8decode : List Nat → Option String)
        (urlParse : Except GitHubClientError Unit)
        (resps resps' : TreeEntry → BlobHttpResult) (entries : List TreeEntry),
        (∀ e ∈ blobRequestEntries entries, resps e = resps' e) →
        fetch_blob_contents_for_entries b64decode utf8decode urlParse resps entries =
          fetch_blob_contents_for_entries b64decode utf8decode urlParse resps' entries) ∧
    (∀ (b64decode : String → Option (List Nat)) (utf8decode : List Nat → Option String)
        (resps : TreeEntry → BlobHttpResult) (entries : List TreeEntry),
        (∀ e ∈ blobRequestEntries entries,
          ∃ v, fetch_single_blob b64decode utf8decode e (resps e) = .ok v) →
        fetch_blob_contents_for_entries b64decode utf8decode (.ok ()) resps entries =
          .ok ((blobRequestEntries entries).filterMap
            (decodedBlob b64decode utf8decode resps))) ∧
    (∀ (b64decode : String → Option (List Nat)) (utf8decode : List Nat → Option String)
        (resps : TreeEntry → BlobHttpResult) (entries : List TreeEntry)
        (e₀ : TreeEntry) (err : GitHubClientError),
        e₀ ∈ blobRequestEntries entries →
        fetch_single_blob b64decode utf8decode e₀ (resps e₀) = .error err →
        ∃ err', fetch_blob_contents_for_entries b64decode utf8decode (.ok ()) resps entries =
          .error err') ∧
    (∀ (b64decode : String → Option (List Nat)) (utf8decode : List Nat → Option String)
        (e : TreeEntry) (raw : String) (encoding : Option String),
        shaTruthy e = true → encoding ≠ some "base64" →
        fetch_single_blob b64decode utf8decode e (.okJson (some raw) encoding) = .ok none) ∧
    (∀ (b64decode : String → Option (List Nat)) (utf8decode : List Nat → Option String)
        (e : TreeEntry) (raw : String) (bytes : List Nat) (text : String),
        shaTruthy e = true → raw ≠ "" →
        b64decode (stripB64Ws raw) = some bytes → utf8decode bytes = some text →
        fetch_single_blob b64decode utf8decode e (.okJson (some raw) (some "base64")) =
          .ok (some ⟨e.path, text⟩)) := by
  refine ⟨?_, ?_, ?_, ?_, ?_, ?_⟩
  · intro entries
    exact List.filter_sublist entries
  · intro b64 utf8 u resps resps' entries hagree
    unfold fetch_blob_contents_for_entries
    by_cases hempty : entries = []
    · rw [if_pos hempty, if_pos hempty]
    · rw [if_neg hempty, if_neg hempty]
      cases u with
      | error e => rfl
      | ok _ =>
        dsimp only
        congr 1
        exact List.map_congr_left fun e he => by rw [hagree e he]
  · intro b64 utf8 resps entries hok
    unfold fetch_blob_contents_for_entries
    by_cases hempty : entries = []
    · rw [if_pos hempty]
      subst hempty
      rfl
    · rw [if_neg hempty]
      dsimp only
      rw [collectBlobResults_all_ok _ (by
        intro r hr
        rcases List.mem_map.mp hr with ⟨e, he, rfl⟩
        exact hok e he)]
      congr 1
      rw [List.filterMap_map]
      apply List.filterMap_congr
      intro e he
      rcases hok e he with ⟨v, hv⟩
      simp only [Function.comp_apply, decodedBlob, hv]
  · intro b64 utf8 resps entries e₀ err he₀ herr
    have hne : entries ≠ [] := by
      intro h
      subst h
      simp [blobRequestEntries] at he₀
    unfold fetch_blob_contents_for_entries
    rw [if_neg hne]
    dsimp only
    apply collectBlobResults_error _ err
    rw [← herr]
    exact List.mem_map_of_mem _ he₀
  · intro b64 utf8 e raw encoding hsha henc
    unfold fetch_single_blob
    rw [if_neg (by simp [hsha])]
    simp only
    rw [if_pos]
    right
    exact henc
  · intro b64 utf8 e raw bytes text hsha hraw hb64 hutf8
    unfold fetch_single_blob
    rw [if_neg (by simp [hsha])]
    simp only
    rw [if_neg (by simp [hraw]), hb64]
    simp [hutf8]

/-- Toy base64 decoder for the C6 witness. -/
def c6B64 (s : String) : Option (List Nat) :=
  if s = "QUJD" then some [65, 66, 67] else none

/-- Toy UTF-8 decoder for the C6 witness. -/
def c6Utf8 (bs : List Nat) : Option String :=
  if bs = [65, 66, 67] then some "ABC" else none

/-- Entries for the C6 witness: one sha-bearing entry, one without sha. -/
def c6Entries : List TreeEntry :=
  [⟨"a.txt", none, some "sha1"⟩, ⟨"b.bin", none, none⟩]

/-- Responses for the C6 witness (payload carries whitespace to exercise the
pre-decode stripping). -/
def c6Resps (e : TreeEntry) : BlobHttpResult :=
  if e.path = "a.txt" then .okJson (some "QU JD") (some "base64")
  else .okJson none none

theorem c6WitnessRequests :
    ∀ e ∈ blobRequestEntries c6Entries,
      ∃ v, fetch_single_blob c6B64 c6Utf8 e (c6Resps e) = .ok v := by
  intro e he
  have h1 : blobRequestEntries c6Entries = [⟨"a.txt", none, some "sha1"⟩] := rfl
  rw [h1] at he
  rcases List.mem_singleton.mp he with rfl
  exact ⟨some ⟨"a.txt", "ABC"⟩, rfl⟩

/-- Witness for `C6_blob_fetch_decode_and_errors` at a concrete input. -/
theorem C6_blob_fetch_decode_and_errors_witness :
    (∀ e ∈ blobRequestEntries c6Entries,
        ∃ v, fetch_single_blob c6B64 c6Utf8 e (c6Resps e) = .ok v) ∧
      fetch_blob_contents_for_entries c6B64 c6Utf8 (.ok ()) c6Resps c6Entries =
        .ok ((blobRequestEntries c6Entries).filterMap
          (decodedBlob c6B64 c6Utf8 c6Resps)) :=
  ⟨c6WitnessRequests,
   C6_blob_fetch_decode_and_errors.2.2.1 c6B64 c6Utf8 c6Resps c6Entries c6WitnessRequests⟩

theorem retryGo_succ {E A : Type} (isT : E → Bool) (calls : Nat → Except E A)
    (i r : Nat) :
    retryGo isT calls i (r + 1) =
      match calls i with
      | .ok a => .ok a
      | .error e => if isT e ∧ 0 < r then retryGo isT calls (i + 1) r
                    else .error e := rfl

theorem retryGo_ok {E A : Type} (isT : E → Bool) (calls : Nat → Except E A)
    (i r : Nat) (a : A) (h : calls i = .ok a) :
    retryGo isT calls i (r + 1) = .ok a := by
  rw [retryGo_succ isT calls i r, h]

theorem retryGo_error_stop {E A : Type} (isT : E → Bool) (calls : Nat → Except E A)
    (i r : Nat) (e : E) (h : calls i = .error e) (hstop : ¬ (isT e = true ∧ 0 < r)) :
    retryGo isT calls i (r + 1) = .error e := by
  rw [retryGo_succ isT calls i r, h]
  exact if_neg hstop

theorem retryGo_error_retry {E A : Type} (isT : E → Bool) (calls : Nat → Except E A)
    (i r : Nat) (e : E) (h : calls i = .error e) (hT : isT e = true) (hr : 0 < r) :
    retryGo isT calls i (r + 1) = retryGo isT calls (i + 1) r := by
  rw [retryGo_succ isT calls i r, h]
  exact if_pos ⟨hT, hr⟩

/-- C10 counterexample: the claim says every outbound call — naming
`fetch_repo_tree` — sits behind the retry/circuit-breaker decorators; in the
source `fetch_repo_tree` (and `decide_continue_or_done`) carry no decorator
at all. -/
theorem C10_list_tree_unwrapped_counterexample :
    resilienceWrapping .fetchRepoTree = none ∧
      resilienceWrapping .decideContinueOrDone = none :=
  ⟨rfl, rfl⟩

/-- C10 (amended): every outbound call except `fetch_repo_tree` and
`decide_continue_or_done` carries the standard decorator stack — transient-
only retry with 3 attempts and jitter bounded between 1s and 60s, plus a
circuit breaker with failure threshold 5 and 60s recovery — and the modeled
retry loop never retries a permanent failure, is insensitive to anything
beyond the first three attempts, and retries a transient failure. -/
theorem C10_resilience_wrapping_amended :
    (∀ c : OutboundCall, c ≠ .fetchRepoTree → c ≠ .decideContinueOrDone →
        resilienceWrapping c = some standardPolicy) ∧
    (standardPolicy.retry_attempts = 3 ∧ standardPolicy.retry_transient_only = true ∧
      standardPolicy.retry_min_wait = 1 ∧ standardPolicy.retry_max_wait = 60 ∧
      standardPolicy.breaker_failure_threshold = 5 ∧
      standardPolicy.breaker_recovery_timeout = 60) ∧
    (∀ (E A : Type) (isT : E → Bool) (calls : Nat → Except E A) (e : E),
        calls 0 = .error e → isT e = false →
        retryCall standardPolicy.retry_attempts isT calls = .error e) ∧
    (∀ (E A : Type) (isT : E → Bool) (calls calls' : Nat → Except E A),
        calls 0 = calls' 0 → calls 1 = calls' 1 → calls 2 = calls' 2 →
        retryCall 3 isT calls = retryCall 3 isT calls') ∧
    (∀ (E A : Type) (isT : E → Bool) (calls : Nat → Except E A) (e : E) (a : A),
        calls 0 = .error e → isT e = true → calls 1 = .ok a →
        retryCall 3 isT calls = .ok a) ∧
    (∀ (E A : Type) (isT : E → Bool) (calls : Nat → Except E A) (e0 e1 e2 : E),
        calls 0 = .error e0 → isT e0 = true →
        calls 1 = .error e1 → isT e1 = true →
        calls 2 = .error e2 →
        retryCall 3 isT calls = .error e2) := by
  refine ⟨?_, ⟨rfl, rfl, rfl, rfl, rfl, rfl⟩, ?_, ?_, ?_, ?_⟩
  · intro c h1 h2
    cases c with
    | fetchRepoTree => exact absurd rfl h1
    | decideContinueOrDone => exact absurd rfl h2
    | fetchBlobContentsForEntries => rfl
    | fetchRepoFiles => rfl
    | summarizeRepo => rfl
    | summarizeFolder => rfl
    | summarizeBatch => rfl
    | summarizeProjectFromFolders => rfl
    | planBatchesFromStructure => rfl
  · intro E A isT calls e h0 hperm
    exact retryGo_error_stop isT calls 0 2 e h0 (by simp [hperm])
  · intro E A isT calls calls' h0 h1 h2
    have elast : retryGo isT calls 2 1 = retryGo isT calls' 2 1 := by
      cases hc : calls' 2 with
      | ok a =>
        exact (retryGo_ok isT calls 2 0 a (h2.trans hc)).trans
          (retryGo_ok isT calls' 2 0 a hc).symm
      | error e =>
        exact (retryGo_error_stop isT calls 2 0 e (h2.trans hc) (by simp)).trans
          (retryGo_error_stop isT calls' 2 0 e hc (by simp)).symm
    have emid : retryGo isT calls 1 2 = retryGo isT calls' 1 2 := by
      cases hc : calls' 1 with
      | ok a =>
        exact (retryGo_ok isT calls 1 1 a (h1.trans hc)).trans
          (retryGo_ok isT calls' 1 1 a hc).symm
      | error e =>
        by_cases hT : isT e = true
        · exact ((retryGo_error_retry isT calls 1 1 e (h1.trans hc) hT (by omega)).trans
            elast).trans
            (retryGo_error_retry isT calls' 1 1 e hc hT (by omega)).symm
        · exact (retryGo_error_stop isT calls 1 1 e (h1.trans hc) (by simp [hT])).trans
            (retryGo_error_stop isT calls' 1 1 e hc (by simp [hT])).symm
    cases hc : calls' 0 with
    | ok a =>
      exact (retryGo_ok isT calls 0 2 a (h0.trans hc)).trans
        (retryGo_ok isT calls' 0 2 a hc).symm
    | error e =>
      by_cases hT : isT e = true
      · exact ((retryGo_error_retry isT calls 0 2 e (h0.trans hc) hT (by omega)).trans
          emid).trans
          (retryGo_error_retry isT calls' 0 2 e hc hT (by omega)).symm
      · exact (retryGo_error_stop isT calls 0 2 e (h0.trans hc) (by simp [hT])).trans
          (retryGo_error_stop isT calls' 0 2 e hc (by simp [hT])).symm
  · intro E A isT calls e a h0 hT h1
    exact (retryGo_error_retry isT calls 0 2 e h0 hT (by omega)).trans
      (retryGo_ok isT calls 1 1 a h1)
  · intro E A isT calls e0 e1 e2 h0 hT0 h1 hT1 h2
    exact ((retryGo_error_retry isT calls 0 2 e0 h0 hT0 (by omega)).trans
      (retryGo_error_retry isT calls 1 1 e1 h1 hT1 (by omega))).trans
      (retryGo_error_stop isT calls 2 0 e2 h2 (by simp))

/-- Witness for `C10_resilience_wrapping_amended` at concrete inputs. -/
theorem C10_resilience_wrapping_amended_witness :
    (OutboundCall.summarizeBatch ≠ OutboundCall.fetchRepoTree ∧
      OutboundCall.summarizeBatch ≠ OutboundCall.decideContinueOrDone ∧
      resilienceWrapping .summarizeBatch = some standardPolicy) ∧
    ((fun _ : Nat => (Except.error ⟨"denied", false⟩ :
        Except GitHubClientError Nat)) 0 = .error ⟨"denied", false⟩ ∧
      GitHubClientError.is_transient ⟨"denied", false⟩ = false ∧
      retryCall standardPolicy.retry_attempts GitHubClientError.is_transient
        (fun _ : Nat => (Except.error ⟨"denied", false⟩ :
          Except GitHubClientError Nat)) = .error ⟨"denied", false⟩) :=
  ⟨⟨by decide, by decide,
    C10_resilience_wrapping_amended.1 .summarizeBatch (by decide) (by decide)⟩,
   ⟨rfl, rfl,
    C10_resilience_wrapping_amended.2.2.1 GitHubClientError Nat
      GitHubClientError.is_transient
      (fun _ : Nat => (Except.error ⟨"denied", false⟩ : Except GitHubClientError Nat))
      ⟨"denied", false⟩ rfl rfl⟩⟩

/-- A strict JSON object body whose `summary` string contains a fenced code
block (braces written as escapes, content unchanged):
`{"summary": "a \x60\x60\x60 b \x60\x60\x60 c", "technologies": [], "structure": ""}`. -/
def c8CounterBody : String :=
  "\x7b\"summary\": \"a ``` b ``` c\", \"technologies\": [], \"structure\": \"\"\x7d"

/-- The value `json.loads` produces for `c8CounterBody`. -/
def c8CounterJson : Json :=
  Json.obj [("summary", Json.str "a ``` b ``` c"), ("technologies", Json.arr []),
            ("structure", Json.str "")]

/-- A parser agreeing with `json.loads` on every string this trace touches:
it parses `c8CounterBody` to its object and (like `json.loads`) fails on the
fence-extracted fragment `"b"`. -/
def c8CounterLoads (s : String) : Option Json :=
  if s = c8CounterBody then some c8CounterJson else none

/-- C8 counterexample: a strict JSON object body does NOT always round-trip.
`c8CounterBody` parses (by `json.loads`, modeled by `c8CounterLoads`) to an
object whose summary is `"a \x60\x60\x60 b \x60\x60\x60 c"`, yet
`_parse_structured_response` first extracts the text between the first two
fences (`"b"`), fails to parse it, and falls back to the whole raw text as
the summary — which differs from the `summary` field. -/
theorem C8_fenced_string_breaks_round_trip :
    c8CounterLoads (pyStrip c8CounterBody) = some c8CounterJson ∧
    extractFenced (pyStrip c8CounterBody) = some "b" ∧
    c8CounterLoads "b" = none ∧
    parse_structured_response c8CounterLoads c8CounterBody =
      ⟨pyStrip c8CounterBody, [], ""⟩ ∧
    (parse_structured_response c8CounterLoads c8CounterBody).summary ≠
      "a ``` b ``` c" :=
  ⟨rfl, rfl, rfl, rfl, by decide⟩

/-- The text actually handed to `json.loads` by `_parse_structured_response`
on non-empty input: the fenced fragment when present, else the stripped
reply. -/
def parseEffectiveText (content : String) : String :=
  match extractFenced (pyStrip content) with
  | some t => t
  | none => pyStrip content

theorem parse_structured_response_eq (loads : String → Option Json)
    (content : String) :
    parse_structured_response loads content =
      if pyStrip content = "" then ⟨"", [], ""⟩
      else
        match loads (parseEffectiveText content) with
        | none => ⟨pyStrip content, [], ""⟩
        | some (.obj fields) => structuredFromObj fields content
        | some _ => ⟨pyStrip content, [], ""⟩ := rfl

theorem strData_append (s t : String) : (s ++ t).data = s.data ++ t.data := rfl

theorem startsWithFence_false_head (c : Char) (hc : ¬ c = '\x60') (xs : List Char) :
    startsWithFence (c :: xs) = false := by
  cases xs with
  | nil => rfl
  | cons b ys =>
    cases ys with
    | nil => rfl
    | cons b2 zs => simp [startsWithFence, hc]

theorem splitFence_cons_not_fence (c : Char) (cs : List Char)
    (h : startsWithFence (c :: cs) = false) :
    splitFence (c :: cs) = (splitFence cs).map fun p => (c :: p.1, p.2) := by
  rw [splitFence, if_neg (by simp [h])]

theorem splitFence_cons_none (c : Char) (cs : List Char)
    (h : splitFence (c :: cs) = none) : splitFence cs = none := by
  rw [splitFence] at h
  by_cases hf : startsWithFence (c :: cs) = true
  · rw [if_pos hf] at h; cases h
  · rw [if_neg hf] at h
    exact Option.map_eq_none'.mp h

theorem startsWithFence_append_close (c : Char) (body : List Char)
    (h : startsWithFence (c :: (body ++ ['\n', '\x60', '\x60', '\x60'])) = true) :
    startsWithFence (c :: body) = true := by
  cases body with
  | nil => simp [startsWithFence] at h
  | cons b ys =>
    cases ys with
    | nil => simp [startsWithFence] at h
    | cons b2 zs =>
      simpa [startsWithFence, List.cons_append] using h

theorem splitFence_append_close :
    ∀ (body : List Char), splitFence body = none →
      splitFence (body ++ ['\n', '\x60', '\x60', '\x60']) =
        some (body ++ ['\n'], []) := by
  intro body
  induction body with
  | nil => intro _; rfl
  | cons c body ih =>
    intro hff
    have hswf : startsWithFence (c :: (body ++ ['\n', '\x60', '\x60', '\x60'])) = false := by
      by_cases h : startsWithFence (c :: (body ++ ['\n', '\x60', '\x60', '\x60'])) = true
      · exfalso
        have h2 := startsWithFence_append_close c body h
        rw [splitFence, if_pos (by simp [h2])] at hff
        cases hff
      · simpa using h
    have hrest : splitFence body = none := splitFence_cons_none c body hff
    rw [List.cons_append, splitFence_cons_not_fence c _ hswf, ih hrest]
    rfl

theorem charTrimLeft_cons_ws (c : Char) (h : isPyWs c = true) (xs : List Char) :
    charTrimLeft (c :: xs) = charTrimLeft xs := by
  simp [charTrimLeft, h]

theorem charTrimLeft_cons_nonws (c : Char) (h : isPyWs c = false) (xs : List Char) :
    charTrimLeft (c :: xs) = c :: xs := by
  simp [charTrimLeft, List.dropWhile_cons, h]

theorem charTrimLeft_append (xs ys : List Char) :
    charTrimLeft (xs ++ ys) =
      if charTrimLeft xs = [] then charTrimLeft ys else charTrimLeft xs ++ ys := by
  induction xs with
  | nil => simp [charTrimLeft]
  | cons c xs ih =>
    by_cases h : isPyWs c = true
    · rw [List.cons_append, charTrimLeft_cons_ws c h, charTrimLeft_cons_ws c h, ih]
    · have h' : isPyWs c = false := by simpa using h
      rw [List.cons_append, charTrimLeft_cons_nonws c h', charTrimLeft_cons_nonws c h']
      simp

theorem charTrimRight_append_ws (c : Char) (h : isPyWs c = true) (xs : List Char) :
    charTrimRight (xs ++ [c]) = charTrimRight xs := by
  simp [charTrimRight, List.reverse_append, List.dropWhile_cons, h]

theorem charTrimRight_append_nonws (c : Char) (h : isPyWs c = false) (xs : List Char) :
    charTrimRight (xs ++ [c]) = xs ++ [c] := by
  simp [charTrimRight, List.reverse_append, List.dropWhile_cons, h]

theorem charTrim_cons_ws (c : Char) (h : isPyWs c = true) (xs : List Char) :
    charTrim (c :: xs) = charTrim xs := by
  simp [charTrim, charTrimLeft_cons_ws c h]

theorem charTrim_append_ws (c : Char) (h : isPyWs c = true) (xs : List Char) :
    charTrim (xs ++ [c]) = charTrim xs := by
  unfold charTrim
  rw [charTrimLeft_append]
  by_cases hx : charTrimLeft xs = []
  · rw [if_pos hx, hx]
    cases hc : charTrimLeft [c] with
    | nil => simp [charTrimRight]
    | cons d ds =>
      rw [charTrimLeft] at hc
      by_cases hdw : isPyWs c = true
      · simp [List.dropWhile_cons, hdw] at hc
      · exact absurd h hdw
  · rw [if_neg hx]
    exact charTrimRight_append_ws c h (charTrimLeft xs)

theorem charTrim_cons_append_nonws (c d : Char) (hc : isPyWs c = false)
    (hd : isPyWs d = false) (xs : List Char) :
    charTrim (c :: (xs ++ [d])) = c :: (xs ++ [d]) := by
  unfold charTrim
  rw [charTrimLeft_cons_nonws c hc]
  have h : c :: (xs ++ [d]) = (c :: xs) ++ [d] := by simp
  rw [h, charTrimRight_append_nonws d hd]

theorem pyStrip_wrap (body : String) :
    pyStrip ("```json\n" ++ body ++ "\n```") = "```json\n" ++ body ++ "\n```" := by
  unfold pyStrip
  have hd : ("```json\n" ++ body ++ "\n```").data =
      '\x60' :: ((['\x60', '\x60', 'j', 's', 'o', 'n', '\n'] ++ body.data ++
        ['\n', '\x60', '\x60']) ++ ['\x60']) := by
    rw [strData_append, strData_append]
    simp
  rw [hd, charTrim_cons_append_nonws _ _ (by decide) (by decide), ← hd]

theorem extractFenced_wrap (body : String) (hff : splitFence body.data = none) :
    extractFenced ("```json\n" ++ body ++ "\n```") = some (pyStrip body) := by
  unfold extractFenced
  have hd : ("```json\n" ++ body ++ "\n```").data =
      '\x60' :: '\x60' :: '\x60' ::
        ('j' :: 's' :: 'o' :: 'n' :: '\n' ::
          (body.data ++ ['\n', '\x60', '\x60', '\x60'])) := by
    rw [strData_append, strData_append]
    simp
  rw [hd]
  rw [splitFence, if_pos (by simp [startsWithFence])]
  dsimp only
  have hd3 : List.drop 3 ('\x60' :: '\x60' :: '\x60' ::
      ('j' :: 's' :: 'o' :: 'n' :: '\n' ::
        (body.data ++ ['\n', '\x60', '\x60', '\x60']))) =
      'j' :: 's' :: 'o' :: 'n' :: '\n' ::
        (body.data ++ ['\n', '\x60', '\x60', '\x60']) := rfl
  rw [hd3]
  have hpre : List.isPrefixOf ['j', 's', 'o', 'n']
      ('j' :: 's' :: 'o' :: 'n' :: '\n' ::
        (body.data ++ ['\n', '\x60', '\x60', '\x60'])) = true := by
    simp [List.isPrefixOf]
  rw [if_pos hpre]
  have hd4 : List.drop 4
      ('j' :: 's' :: 'o' :: 'n' :: '\n' ::
        (body.data ++ ['\n', '\x60', '\x60', '\x60'])) =
      '\n' :: (body.data ++ ['\n', '\x60', '\x60', '\x60']) := rfl
  rw [hd4]
  have hnl : splitFence ('\n' :: body.data) = none := by
    rw [splitFence_cons_not_fence '\n' body.data
      (startsWithFence_false_head '\n' (by decide) body.data), hff]
    rfl
  have hassoc : '\n' :: (body.data ++ ['\n', '\x60', '\x60', '\x60']) =
      ('\n' :: body.data) ++ ['\n', '\x60', '\x60', '\x60'] := rfl
  rw [hassoc, splitFence_append_close ('\n' :: body.data) hnl]
  dsimp only
  have htrim : charTrim (('\n' :: body.data) ++ ['\n']) = charTrim body.data := by
    rw [charTrim_append_ws '\n' (by decide), charTrim_cons_ws '\n' (by decide)]
  rw [htrim]
  rfl

theorem filterMap_str_comp (ts : List String) :
    List.filterMap
      ((fun x => match x with | Json.str s => some s | _ => none) ∘ Json.str) ts = ts := by
  induction ts with
  | nil => rfl
  | cons a l ih => simp [List.filterMap_cons, Function.comp, ih]

theorem structuredFromObj_std (s st : String) (ts : List String) (content : String) :
    structuredFromObj
      [("summary", Json.str s), ("technologies", Json.arr (ts.map Json.str)),
       ("structure", Json.str st)] content = ⟨s, ts, st⟩ := by
  unfold structuredFromObj jsonGetPy jsonGet
  simp [filterMap_str_comp]

theorem splitFence_append_ne_none :
    ∀ (s t : List Char), splitFence s ≠ none → splitFence (s ++ t) ≠ none := by
  intro s
  induction s with
  | nil => intro t h; exact absurd rfl h
  | cons c s ih =>
    intro t h
    by_cases hswf : startsWithFence (c :: s) = true
    · rcases s with _ | ⟨a, _ | ⟨b, r⟩⟩
      · simp [startsWithFence] at hswf
      · simp [startsWithFence] at hswf
      · simp only [startsWithFence, Bool.and_eq_true, decide_eq_true_eq] at hswf
        rcases hswf with ⟨⟨rfl, rfl⟩, rfl⟩
        rw [List.cons_append, splitFence, if_pos (by simp [startsWithFence])]
        simp
    · rw [splitFence, if_neg (by simpa using hswf)] at h
      have hs : splitFence s ≠ none := by
        intro hnone
        rw [hnone] at h
        exact h rfl
      rw [List.cons_append, splitFence]
      by_cases hswf2 : startsWithFence (c :: (s ++ t)) = true
      · rw [if_pos (by simpa using hswf2)]
        simp
      · rw [if_neg (by simpa using hswf2)]
        intro hnone
        exact ih t hs (Option.map_eq_none'.mp hnone)

theorem splitFence_of_append_none (s t : List Char)
    (h : splitFence (s ++ t) = none) : splitFence s = none := by
  by_contra hne
  exact splitFence_append_ne_none s t hne h

theorem splitFence_of_suffix_none :
    ∀ (t s : List Char), splitFence (t ++ s) = none → splitFence s = none := by
  intro t
  induction t with
  | nil => intro s h; exact h
  | cons c t ih =>
    intro s h
    exact ih s (splitFence_cons_none c (t ++ s) h)

theorem dropWhile_decomp (p : Char → Bool) :
    ∀ (l : List Char), ∃ t, t ++ l.dropWhile p = l := by
  intro l
  induction l with
  | nil => exact ⟨[], rfl⟩
  | cons c l ih =>
    by_cases h : p c = true
    · rcases ih with ⟨t, ht⟩
      exact ⟨c :: t, by simp [List.dropWhile_cons, h, ht]⟩
    · exact ⟨[], by simp [List.dropWhile_cons, h]⟩

theorem splitFence_charTrim_none (xs : List Char) (h : splitFence xs = none) :
    splitFence (charTrim xs) = none := by
  have h1 : splitFence (charTrimLeft xs) = none := by
    rcases dropWhile_decomp isPyWs xs with ⟨t, ht⟩
    exact splitFence_of_suffix_none t (charTrimLeft xs) (by rw [charTrimLeft, ht]; exact h)
  rcases dropWhile_decomp isPyWs (charTrimLeft xs).reverse with ⟨t, ht⟩
  have hpref : charTrimRight (charTrimLeft xs) ++ t.reverse = charTrimLeft xs := by
    rw [charTrimRight]
    calc ((charTrimLeft xs).reverse.dropWhile isPyWs).reverse ++ t.reverse
        = (t ++ (charTrimLeft xs).reverse.dropWhile isPyWs).reverse := by
          rw [List.reverse_append]
      _ = ((charTrimLeft xs).reverse).reverse := by rw [ht]
      _ = charTrimLeft xs := by rw [List.reverse_reverse]
  have hfinal : splitFence (charTrim xs ++ t.reverse) = none := by
    have heq : charTrim xs ++ t.reverse = charTrimLeft xs := by
      rw [charTrim]
      exact hpref
    rw [heq]
    exact h1
  exact splitFence_of_append_none (charTrim xs) t.reverse hfinal

theorem extractFenced_none_of_fence_free (s : String) (h : splitFence s.data = none) :
    extractFenced s = none := by
  unfold extractFenced
  rw [h]

/-- C8 (amended): parsing is total by construction, and
(1) a non-empty strict JSON object body containing no triple-backtick fence
round-trips its summary/technologies/structure fields exactly;
(2) the same JSON wrapped in a ```json fenced block parses to the identical
result (the wrapped and the bare reply both yield the object's fields);
(3) any reply whose effective text — the fenced fragment when a fence is
present, the stripped reply otherwise — is not parseable JSON degrades to
`{summary: rawText, technologies: [], structure: ""}`, as does a JSON value
that is not an object. -/
theorem C8_structured_parsing_amended :
    (∀ (loads : String → Option Json) (content : String) (s st : String)
        (ts : List String),
        pyStrip content ≠ "" →
        extractFenced (pyStrip content) = none →
        loads (pyStrip content) = some (Json.obj
          [("summary", Json.str s), ("technologies", Json.arr (ts.map Json.str)),
           ("structure", Json.str st)]) →
        parse_structured_response loads content = ⟨s, ts, st⟩) ∧
    (∀ (loads : String → Option Json) (body : String) (s st : String)
        (ts : List String),
        pyStrip body ≠ "" →
        splitFence body.data = none →
        loads (pyStrip body) = some (Json.obj
          [("summary", Json.str s), ("technologies", Json.arr (ts.map Json.str)),
           ("structure", Json.str st)]) →
        parse_structured_response loads ("```json\n" ++ body ++ "\n```") = ⟨s, ts, st⟩ ∧
          parse_structured_response loads body = ⟨s, ts, st⟩) ∧
    (∀ (loads : String → Option Json) (content : String),
        pyStrip content ≠ "" →
        loads (parseEffectiveText content) = none →
        parse_structured_response loads content = ⟨pyStrip content, [], ""⟩) ∧
    (∀ (loads : String → Option Json) (content : String) (v : Json),
        pyStrip content ≠ "" →
        loads (parseEffectiveText content) = some v →
        (∀ fields, v ≠ Json.obj fields) →
        parse_structured_response loads content = ⟨pyStrip content, [], ""⟩) := by
  have hA : ∀ (loads : String → Option Json) (content : String) (s st : String)
      (ts : List String),
      pyStrip content ≠ "" →
      extractFenced (pyStrip content) = none →
      loads (pyStrip content) = some (Json.obj
        [("summary", Json.str s), ("technologies", Json.arr (ts.map Json.str)),
         ("structure", Json.str st)]) →
      parse_structured_response loads content = ⟨s, ts, st⟩ := by
    intro loads content s st ts h1 h2 h3
    rw [parse_structured_response_eq, if_neg h1]
    have heff : parseEffectiveText content = pyStrip content := by
      rw [parseEffectiveText, h2]
    rw [heff, h3]
    exact structuredFromObj_std s st ts content
  refine ⟨hA, ?_, ?_, ?_⟩
  · intro loads body s st ts hne hff h3
    constructor
    · have hwrapstrip := pyStrip_wrap body
      have hwrapne : pyStrip ("```json\n" ++ body ++ "\n```") ≠ "" := by
        rw [hwrapstrip]
        intro habs
        have := congrArg String.data habs
        rw [strData_append, strData_append] at this
        simp at this
      rw [parse_structured_response_eq, if_neg hwrapne]
      have heff : parseEffectiveText ("```json\n" ++ body ++ "\n```") = pyStrip body := by
        rw [parseEffectiveText, hwrapstrip, extractFenced_wrap body hff]
      rw [heff, h3]
      exact structuredFromObj_std s st ts _
    · refine hA loads body s st ts hne ?_ h3
      exact extractFenced_none_of_fence_free _ (splitFence_charTrim_none body.data hff)
  · intro loads content h1 h2
    rw [parse_structured_response_eq, if_neg h1, h2]
  · intro loads content v h1 h2 hnotobj
    rw [parse_structured_response_eq, if_neg h1, h2]
    cases v with
    | obj fields => exact absurd rfl (hnotobj fields)
    | null => rfl
    | bool b => rfl
    | num n => rfl
    | str s => rfl
    | arr xs => rfl

/-- A strict JSON reply for the C8 witness. -/
def c8WitnessBody : String :=
  "\x7b\"summary\": \"ok\", \"technologies\": [\"python\"], \"structure\": \"tree\"\x7d"

/-- A parser agreeing with `json.loads` on the strings the C8 witness
touches. -/
def c8WitnessLoads (s : String) : Option Json :=
  if s = c8WitnessBody then
    some (Json.obj
      [("summary", Json.str "ok"), ("technologies", Json.arr [Json.str "python"]),
       ("structure", Json.str "tree")])
  else none

/-- Witness for `C8_structured_parsing_amended` at a concrete reply. -/
theorem C8_structured_parsing_amended_witness :
    (pyStrip c8WitnessBody ≠ "" ∧
      extractFenced (pyStrip c8WitnessBody) = none ∧
      c8WitnessLoads (pyStrip c8WitnessBody) = some (Json.obj
        [("summary", Json.str "ok"),
         ("technologies", Json.arr ((["python"] : List String).map Json.str)),
         ("structure", Json.str "tree")]) ∧
      parse_structured_response c8WitnessLoads c8WitnessBody = ⟨"ok", ["python"], "tree"⟩) ∧
    (pyStrip "nonsense reply" ≠ "" ∧
      c8WitnessLoads (parseEffectiveText "nonsense reply") = none ∧
      parse_structured_response c8WitnessLoads "nonsense reply" =
        ⟨pyStrip "nonsense reply", [], ""⟩) :=
  ⟨⟨by decide, by decide, rfl,
    C8_structured_parsing_amended.1 c8WitnessLoads c8WitnessBody "ok" "tree" ["python"]
      (by decide) (by decide) rfl⟩,
   ⟨by decide, rfl,
    C8_structured_parsing_amended.2.2.1 c8WitnessLoads "nonsense reply" (by decide) rfl⟩⟩
